import Mathlib

/-!
# Verification of the OpenLayers canvas/WebGL rendering core

Shallow embedding of the Builder → Instruction → Executor pipeline and of the
WebGL resource helper, translated from the JavaScript sources
(`ol/render/canvas/Builder`, `ol/render/canvas/Executor`,
`ol/render/canvas/BuilderGroup`, `ol/render/canvas/ExecutorGroup`,
`ol/render/canvas/LineStringBuilder`, `ol/webgl/Helper`,
`ol/renderer/webgl/PointsLayer`).

JavaScript numbers used by the embedded code paths are only ever compared or
added/subtracted, so they are modelled with `Int`/`Nat`.  JavaScript objects
used as string-keyed dictionaries are modelled with association lists whose
lookup takes the most recently inserted binding, matching property assignment
semantics.  Code that can throw (e.g. dereferencing `undefined`) is modelled
with `Option`.
-/

namespace OL

/-! ## Circle-mask cache (`getCircleArray` / `fillCircleArrayRowToMiddle`,
`ol/render/canvas/ExecutorGroup.js`)

The JS arrays hold `true` or `undefined`; a cell is modelled as `Bool` with
`false` standing for `undefined` (the code only ever assigns `true`). -/

/-- A square boolean grid, row-major: `grid[x][y]` is `arr[x][y]` in the JS. -/
abbrev Grid := List (List Bool)

/-- `arr[x][y] = true`.  The assignment is a no-op out of bounds; all calls made
by `getCircleArray` are in bounds, so this matches the JS behaviour there. -/
def gridSet (arr : Grid) (x y : Nat) : Grid :=
  match arr.get? x with
  | some row => arr.set x (row.set y true)
  | none => arr

/-- The `for (i = lo; i < hi; i++) array[i][y] = true;` loops of
`fillCircleArrayRowToMiddle`. -/
def fillRange (arr : Grid) (lo hi y : Nat) : Grid :=
  if lo < hi then fillRange (gridSet arr lo y) (lo + 1) hi y else arr
termination_by hi - lo
decreasing_by omega

/-- `fillCircleArrayRowToMiddle(array, x, y)`: fills a row from the given
coordinate to the middle with `true` (`radius = Math.floor(array.length / 2)`
is inlined as `arr.length / 2`). -/
def fillCircleArrayRowToMiddle (arr : Grid) (x y : Nat) : Grid :=
  if arr.length / 2 ≤ x then fillRange arr (arr.length / 2) x y
  else fillRange arr (x + 1) (arr.length / 2) y

/-- The eight `fillCircleArrayRowToMiddle` calls in the body of the
midpoint-circle loop of `getCircleArray`.  While the loop runs,
`0 ≤ y ≤ x ≤ radius`, so the fill calls receive the nonnegative indices
`radius ± x`, `radius ± y`. -/
def fill8 (arr : Grid) (radius : Nat) (x y : Int) : Grid :=
  let r : Int := radius
  let a1 := fillCircleArrayRowToMiddle arr (r + x).toNat (r + y).toNat
  let a2 := fillCircleArrayRowToMiddle a1 (r + y).toNat (r + x).toNat
  let a3 := fillCircleArrayRowToMiddle a2 (r - y).toNat (r + x).toNat
  let a4 := fillCircleArrayRowToMiddle a3 (r - x).toNat (r + y).toNat
  let a5 := fillCircleArrayRowToMiddle a4 (r - x).toNat (r - y).toNat
  let a6 := fillCircleArrayRowToMiddle a5 (r - y).toNat (r - x).toNat
  let a7 := fillCircleArrayRowToMiddle a6 (r + y).toNat (r - x).toNat
  fillCircleArrayRowToMiddle a7 (r + x).toNat (r - y).toNat

/-- The midpoint-circle `while (x >= y)` loop of `getCircleArray`.
`x`, `y` and `error` are `Int` as in JS (`x` transiently reaches `-1` after the
loop exits).  The `y++; error += 1 + 2 * y;` updates are inlined:
the new `y` is `y + 1` and the new `error` is `error + 1 + 2 * (y + 1)`;
when `2 * (error - x) + 1 > 0` additionally `x` becomes `x - 1` and `error`
gains `1 - 2 * (x - 1)`. -/
def circleLoop (arr : Grid) (radius : Nat) (x y error : Int) : Grid :=
  if _h : y ≤ x then
    if 2 * ((error + 1 + 2 * (y + 1)) - x) + 1 > 0 then
      circleLoop (fill8 arr radius x y) radius (x - 1) (y + 1)
        ((error + 1 + 2 * (y + 1)) + 1 - 2 * (x - 1))
    else
      circleLoop (fill8 arr radius x y) radius x (y + 1) (error + 1 + 2 * (y + 1))
  else arr
termination_by (x + 1 - y).toNat
decreasing_by
  · omega
  · omega

/-- The module-level `circleArrayCache` object, keyed by integer radius.  The
most recent binding wins, as for JS property assignment. -/
abbrev CircleCache := List (Nat × Grid)

/-- `circleArrayCache = {0: [[true]]}` -/
def circleArrayCache0 : CircleCache := [(0, [[true]])]

/-- `new Array(arraySize)` of `new Array(arraySize)`: all cells `undefined`. -/
def mkGrid (n : Nat) : Grid := List.replicate n (List.replicate n false)

/-- `getCircleArray(radius)`, with the mutable module cache made explicit:
returns the resulting array together with the updated cache. -/
def getCircleArray (cache : CircleCache) (radius : Nat) : Grid × CircleCache :=
  match (cache.find? (fun p => p.1 == radius)).map (·.2) with
  | some arr => (arr, cache)
  | none =>
      let arraySize := radius * 2 + 1
      let arr := mkGrid arraySize
      let arr := circleLoop arr radius radius 0 0
      (arr, (radius, arr) :: cache)

/-- The grid is a square with side length `n`. -/
def gridDims (arr : Grid) (n : Nat) : Prop :=
  arr.length = n ∧ ∀ row ∈ arr, row.length = n

/-- Cell `(x, y)` of the grid holds `true` (in JS: `arr[x][y] === true`, every
other cell reads back `undefined`). -/
def cellTrue (arr : Grid) (x y : Nat) : Prop :=
  (arr.getD x []).getD y false = true

/-- Reachable states of the module-level `circleArrayCache`: every stored
array is the `(2r+1)×(2r+1)` square whose centre is `true`, and the seed entry
for radius `0` (present from module initialization, never removed) is still
there. -/
def circleCacheValid (c : CircleCache) : Prop :=
  (∀ p ∈ c, gridDims p.2 (2 * p.1 + 1) ∧ cellTrue p.2 p.1 p.1) ∧
    (c.find? (fun p => p.1 == 0)).isSome = true

instance (arr : Grid) (n : Nat) : Decidable (gridDims arr n) := by
  unfold gridDims
  infer_instance

instance (arr : Grid) (x y : Nat) : Decidable (cellTrue arr x y) := by
  unfold cellTrue
  infer_instance

instance (c : CircleCache) : Decidable (circleCacheValid c) := by
  unfold circleCacheValid
  infer_instance

/-! ## Replay kinds and the canvas BuilderGroup
(`ol/render/canvas/BuilderGroup.js`) -/

/-- The replay/builder kinds (`ReplayType`): keys of `BATCH_CONSTRUCTORS`,
elements of `ORDER`. -/
inductive ReplayKind where
  | circle
  | defaultKind
  | image
  | lineString
  | polygon
  | text
deriving DecidableEq, Repr

/-- A Builder instance as returned by `new Constructor(...)` in `getBuilder`:
object identity is modelled by a unique id allocated at construction, and the
kind records which `BATCH_CONSTRUCTORS` entry was used. -/
structure BuilderRef where
  uid : Nat
  kind : ReplayKind
deriving DecidableEq, Repr

/-- The state of a `CanvasBuilderGroup` that `getBuilder` touches:
`buildersByZIndex_` (string-keyed object of objects) plus the allocator for
builder identities. -/
structure CanvasBuilderGroup where
  nextUid : Nat
  buildersByZIndex : List (String × List (ReplayKind × BuilderRef))
deriving DecidableEq, Repr

/-- `zIndex !== undefined ? zIndex.toString() : '0'` -/
def zIndexKeyOf (zIndex : Option Int) : String :=
  match zIndex with
  | some z => toString z
  | none => "0"

/-- `getBuilder` after the z-index key has been computed: the builder is
created on first use and cached under `(zIndexKey, replayType)`. -/
def getBuilderKeyed (g : CanvasBuilderGroup) (zIndexKey : String)
    (replayType : ReplayKind) : BuilderRef × CanvasBuilderGroup :=
  match (g.buildersByZIndex.find? (fun p => p.1 == zIndexKey)).map (·.2) with
  | none =>
      let b : BuilderRef := ⟨g.nextUid, replayType⟩
      (b, { nextUid := g.nextUid + 1
            buildersByZIndex :=
              (zIndexKey, [(replayType, b)]) :: g.buildersByZIndex })
  | some replays =>
      match (replays.find? (fun p => p.1 == replayType)).map (·.2) with
      | some b => (b, g)
      | none =>
          let b : BuilderRef := ⟨g.nextUid, replayType⟩
          (b, { nextUid := g.nextUid + 1
                buildersByZIndex :=
                  (zIndexKey, (replayType, b) :: replays) :: g.buildersByZIndex })

/-- `getBuilder(zIndex, replayType)`: an undefined z-index is normalized to the
string key "0", otherwise the numeric z-index is stringified. -/
def getBuilder (g : CanvasBuilderGroup) (zIndex : Option Int)
    (replayType : ReplayKind) : BuilderRef × CanvasBuilderGroup :=
  getBuilderKeyed g (zIndexKeyOf zIndex) replayType

/-! ## WebGL resource helper (`ol/webgl/Helper.js`)

Buffer/shader objects are identified by their `getUid` value, modelled as a
`Nat`.  GPU handles returned by `gl.create*` are modelled by a fresh-handle
counter, and the GL calls the helper issues are recorded in an event list. -/

/-- GPU-side calls issued by the helper, in order. -/
inductive GLEvent where
  | createBuffer (handle : Nat)
  | bindBufferCall (target handle : Nat)
  | bufferData (target handle : Nat)
  | deleteBufferCall (handle : Nat)
  | createShader (handle : Nat)
  | compileShader (handle : Nat)
  | createProgram (handle : Nat)
  | attachShader (program shader : Nat)
  | linkProgram (program : Nat)
deriving DecidableEq, Repr

/-- State of a `WebGLHelper`: the three resource caches, the current-program
pointer, the fresh-handle allocator, the GL call log, and whether the
underlying context is lost (`gl.isContextLost()`). -/
structure WebGLHelper where
  bufferCache : List (Nat × Nat)
  shaderCache : List (Nat × Nat)
  programCache : List ((Nat × Nat) × Nat)
  currentProgram : Option Nat
  nextHandle : Nat
  events : List GLEvent
  contextLost : Bool
deriving DecidableEq, Repr

/-- `bindBuffer(target, buf)`: bind the cached buffer, or create + cache it,
then flush the data (`gl.bufferData`). -/
def bindBuffer (h : WebGLHelper) (target bufKey : Nat) : WebGLHelper :=
  match (h.bufferCache.find? (fun p => p.1 == bufKey)).map (·.2) with
  | some handle =>
      { h with events := h.events ++
          [GLEvent.bindBufferCall target handle, GLEvent.bufferData target handle] }
  | none =>
      let handle := h.nextHandle
      { h with
          nextHandle := handle + 1
          bufferCache := (bufKey, handle) :: h.bufferCache
          events := h.events ++ [GLEvent.createBuffer handle,
            GLEvent.bindBufferCall target handle,
            GLEvent.bufferData target handle] }

/-- `deleteBuffer(buf)`: looks the buffer up in the cache, calls
`gl.deleteBuffer(bufferCacheEntry.buffer)` unless the context is lost, then
removes the cache entry.  When the buffer was never bound the cache entry is
`undefined`, and reading `.buffer` from it throws — modelled by `none`. -/
def deleteBuffer (h : WebGLHelper) (bufKey : Nat) : Option WebGLHelper :=
  let entry := (h.bufferCache.find? (fun p => p.1 == bufKey)).map (·.2)
  if !h.contextLost then
    match entry with
    | none => none
    | some handle =>
        some { h with
          events := h.events ++ [GLEvent.deleteBufferCall handle]
          bufferCache := h.bufferCache.filter (fun p => !(p.1 == bufKey)) }
  else
    some { h with bufferCache := h.bufferCache.filter (fun p => !(p.1 == bufKey)) }

/-- `handleWebGLContextLost()`: `clear` (from `ol/obj.js`, i.e. remove every
property of) the three caches and null the current program. -/
def handleWebGLContextLost (h : WebGLHelper) : WebGLHelper :=
  { h with
      bufferCache := []
      shaderCache := []
      programCache := []
      currentProgram := none }

/-- `getShader(shaderObject)`: return the cached shader, or create, source,
compile and cache a new one. -/
def getShader (h : WebGLHelper) (shaderKey : Nat) : Nat × WebGLHelper :=
  match (h.shaderCache.find? (fun p => p.1 == shaderKey)).map (·.2) with
  | some s => (s, h)
  | none =>
      let s := h.nextHandle
      (s, { h with
              nextHandle := s + 1
              shaderCache := (shaderKey, s) :: h.shaderCache
              events := h.events ++
                [GLEvent.createShader s, GLEvent.compileShader s] })

/-- Append GL events to the helper log (helper for `getProgram`). -/
def attachEvents (h : WebGLHelper) (evs : List GLEvent) : WebGLHelper :=
  { h with events := h.events ++ evs }

/-- `getProgram(fragmentShaderObject, vertexShaderObject)`: return the cached
program for the key `uid(frag) + '/' + uid(vert)` (modelled by the uid pair),
or create a program, attach both shaders (through `getShader`), link it and
cache it. -/
def getProgram (h : WebGLHelper) (fragKey vertKey : Nat) : Nat × WebGLHelper :=
  match (h.programCache.find? (fun p => p.1 == (fragKey, vertKey))).map (·.2) with
  | some p => (p, h)
  | none =>
      let p := h.nextHandle
      let h1 := attachEvents { h with nextHandle := p + 1 }
        [GLEvent.createProgram p]
      let h2 := attachEvents (getShader h1 fragKey).2
        [GLEvent.attachShader p (getShader h1 fragKey).1]
      let h3 := attachEvents (getShader h2 vertKey).2
        [GLEvent.attachShader p (getShader h2 vertKey).1, GLEvent.linkProgram p]
      (p, { h3 with programCache := ((fragKey, vertKey), p) :: h3.programCache })

/-! ## Coordinate buffer and clipper (`appendFlatCoordinates`,
`ol/render/canvas/Builder.js`)

Coordinates are JS numbers used only in comparisons, modelled as `Int`. -/

/-- An extent `[minX, minY, maxX, maxY]`. -/
structure Extent where
  minX : Int
  minY : Int
  maxX : Int
  maxY : Int
deriving DecidableEq, Repr

namespace Relationship

/-- Modelled from the spec: the relationship enum of `ol/extent/Relationship.js`
(not under src/) — inside(=intersecting) / outside-left / outside-right /
outside-top / outside-bottom bit flags. -/
def INTERSECTING : Nat := 1

def ABOVE : Nat := 2

def RIGHT : Nat := 4

def BELOW : Nat := 8

def LEFT : Nat := 16

end Relationship

/-- Modelled from the spec: `coordinateRelationship(extent, coordinate)` of
`ol/extent.js` (not under src/) — classifies each point's relationship to the
extent as intersecting or a combination of the outside flags. -/
def coordinateRelationship (extent : Extent) (x y : Int) : Nat :=
  let rx := if x < extent.minX then Relationship.LEFT
    else if x > extent.maxX then Relationship.RIGHT else 0
  let ry := if y < extent.minY then Relationship.BELOW
    else if y > extent.maxY then Relationship.ABOVE else 0
  let r := rx + ry
  if r = 0 then Relationship.INTERSECTING else r

/-- The walk of `appendFlatCoordinates`' main `for` loop: classifies each point
against the extent; a point whose relationship equals the previous point's is
kept only when intersecting, and on a relationship change the previous point is
re-appended when it had been dropped.  `acc` is `this.coordinates`, written at
`myEnd++`, i.e. appended to.  The returned tuple is
(buffer, lastCoord x, lastCoord y, skipped). -/
def appendLoop (flat : List Int) (extent : Extent) (stride : Nat)
    (hs : 0 < stride) (i endI : Nat) (lastX lastY : Int) (lastRel : Option Nat)
    (skipped : Bool) (acc : List Int) : List Int × Int × Int × Bool :=
  if _h : i < endI then
    if some (coordinateRelationship extent (flat.getD i 0) (flat.getD (i + 1) 0))
        ≠ lastRel then
      appendLoop flat extent stride hs (i + stride) endI (flat.getD i 0)
        (flat.getD (i + 1) 0)
        (some (coordinateRelationship extent (flat.getD i 0) (flat.getD (i + 1) 0)))
        false
        ((if skipped then acc ++ [lastX, lastY] else acc)
          ++ [flat.getD i 0, flat.getD (i + 1) 0])
    else if coordinateRelationship extent (flat.getD i 0) (flat.getD (i + 1) 0)
        = Relationship.INTERSECTING then
      appendLoop flat extent stride hs (i + stride) endI (flat.getD i 0)
        (flat.getD (i + 1) 0)
        (some (coordinateRelationship extent (flat.getD i 0) (flat.getD (i + 1) 0)))
        false (acc ++ [flat.getD i 0, flat.getD (i + 1) 0])
    else
      appendLoop flat extent stride hs (i + stride) endI (flat.getD i 0)
        (flat.getD (i + 1) 0)
        (some (coordinateRelationship extent (flat.getD i 0) (flat.getD (i + 1) 0)))
        true acc
  else (acc, lastX, lastY, skipped)
termination_by endI - i
decreasing_by
  · omega
  · omega
  · omega

/-- The body of `appendFlatCoordinates` after the `if (skipFirst) offset +=
stride;` adjustment: `off1` is the adjusted offset.  The buffer grows by
in-place appends at `myEnd++`; the model returns the new buffer (the JS return
value `myEnd` is its length).  The post-loop JS test `i === offset + stride`
holds exactly when the loop body never ran, i.e. when `end ≤ offset + stride`
(stride is positive). -/
def appendFlatAt (extent : Extent) (buf : List Int) (flat : List Int)
    (off1 endI stride : Nat) (hs : 0 < stride) (closed : Bool) : List Int :=
  if (closed = true ∧ (appendLoop flat extent stride hs (off1 + stride) endI
        (flat.getD off1 0) (flat.getD (off1 + 1) 0) none true buf).2.2.2 = true)
      ∨ endI ≤ off1 + stride then
    (appendLoop flat extent stride hs (off1 + stride) endI (flat.getD off1 0)
        (flat.getD (off1 + 1) 0) none true buf).1 ++
      [(appendLoop flat extent stride hs (off1 + stride) endI (flat.getD off1 0)
          (flat.getD (off1 + 1) 0) none true buf).2.1,
       (appendLoop flat extent stride hs (off1 + stride) endI (flat.getD off1 0)
          (flat.getD (off1 + 1) 0) none true buf).2.2.1]
  else
    (appendLoop flat extent stride hs (off1 + stride) endI (flat.getD off1 0)
        (flat.getD (off1 + 1) 0) none true buf).1

/-- `appendFlatCoordinates(flatCoordinates, offset, end, stride, closed,
skipFirst)`. -/
def appendFlatCoordinates (extent : Extent) (buf : List Int) (flat : List Int)
    (offset endI stride : Nat) (hs : 0 < stride) (closed skipFirst : Bool) :
    List Int :=
  appendFlatAt extent buf flat (if skipFirst then offset + stride else offset)
    endI stride hs closed

/-- The points the loop walks: `(flat[i], flat[i+1])` for
`i = start, start+stride, ... < endI`. -/
def extractPts (flat : List Int) (stride : Nat) (hs : 0 < stride)
    (i endI : Nat) : List (Int × Int) :=
  if _h : i < endI then
    (flat.getD i 0, flat.getD (i + 1) 0) ::
      extractPts flat stride hs (i + stride) endI
  else []
termination_by endI - i
decreasing_by omega

/-- The simplification policy of the loop, restated on the list of walked
points; used to reason about `appendLoop`.  Returns the appended pairs, the
final `lastCoord` and the final `skipped` flag. -/
def simplifyPts (extent : Extent) :
    List (Int × Int) → (Int × Int) → Option Nat → Bool →
      List (Int × Int) × (Int × Int) × Bool
  | [], last, _, skipped => ([], last, skipped)
  | n :: rest, last, lastRel, skipped =>
      if some (coordinateRelationship extent n.1 n.2) ≠ lastRel then
        ((if skipped then [last, n] else [n]) ++
          (simplifyPts extent rest n
            (some (coordinateRelationship extent n.1 n.2)) false).1,
         (simplifyPts extent rest n
            (some (coordinateRelationship extent n.1 n.2)) false).2)
      else if coordinateRelationship extent n.1 n.2 = Relationship.INTERSECTING then
        (n :: (simplifyPts extent rest n
            (some (coordinateRelationship extent n.1 n.2)) false).1,
         (simplifyPts extent rest n
            (some (coordinateRelationship extent n.1 n.2)) false).2)
      else
        simplifyPts extent rest n (some (coordinateRelationship extent n.1 n.2)) true

/-- The relationship of a walked point. -/
def relOf (extent : Extent) (p : Int × Int) : Nat :=
  coordinateRelationship extent p.1 p.2

/-- All points `appendFlatCoordinates` walks: the initial `lastCoord` followed
by the loop's points. -/
def walkedPts (flat : List Int) (stride : Nat) (hs : 0 < stride)
    (off1 endI : Nat) : List (Int × Int) :=
  (flat.getD off1 0, flat.getD (off1 + 1) 0) ::
    extractPts flat stride hs (off1 + stride) endI

/-- Flatten a pair list into a flat coordinate list. -/
def flattenPairs : List (Int × Int) → List Int
  | [] => []
  | (x, y) :: rest => x :: y :: flattenPairs rest

/-- Group a flat coordinate list into pairs. -/
def pairList : List Int → List (Int × Int)
  | x :: y :: rest => (x, y) :: pairList rest
  | _ => []

/-! ## Canvas instructions and the base/LineString Builder
(`ol/render/canvas/Instruction.js`, `ol/render/canvas/Builder.js`,
`ol/render/canvas/LineStringBuilder.js`) -/

/-- The positional payload of a SET_STROKE_STYLE instruction
(`instruction[1..7]`). -/
structure StrokeStyleVals where
  strokeStyle : Nat
  lineWidth : Int
  lineCap : Nat
  lineJoin : Nat
  miterLimit : Int
  lineDash : List Int
  lineDashOffset : Int
deriving DecidableEq, Repr

/-- A canvas instruction: the opcode (`CanvasInstruction`) with the payload
fields the embedded code paths read.  Features and styles are identified by
numeric ids, `d`/`dd` are indices into the shared coordinate buffer. -/
inductive Instr where
  | beginGeometry (feature : Nat) (skip : Nat)
  | beginPath
  | circle (d : Nat)
  | closePath
  | custom (d dd : Nat)
  | drawImage (d dd : Nat)
  | drawChars (b e : Nat)
  | endGeometry (feature : Nat)
  | fill
  | moveToLineTo (d dd : Nat)
  | setFillStyle (style : Nat) (alignFill : Bool)
  | setStrokeStyle (v : StrokeStyleVals)
  | stroke
deriving DecidableEq, Repr

instance : Inhabited Instr := ⟨Instr.beginPath⟩

/-- The mutable `state` object (`FillStrokeState`) threaded through the style
update calls; `undefined`/`null` fields are `none`. -/
structure FillStrokeState where
  fillStyle : Option Nat := none
  strokeStyle : Option Nat := none
  lineCap : Option Nat := none
  lineDash : Option (List Int) := none
  lineDashOffset : Option Int := none
  lineJoin : Option Nat := none
  lineWidth : Option Int := none
  miterLimit : Option Int := none
  currentFillStyle : Option Nat := none
  currentStrokeStyle : Option Nat := none
  currentLineCap : Option Nat := none
  currentLineDash : Option (List Int) := none
  currentLineDashOffset : Option Int := none
  currentLineJoin : Option Nat := none
  currentLineWidth : Option Int := none
  currentMiterLimit : Option Int := none
  lastStroke : Option Nat := none
deriving DecidableEq, Repr

/-- The builder state the embedded methods touch.  `bufferedMaxExtent` stands
for the cached `getBufferedMaxExtent()` result (its derivation from
`maxExtent` buffers by half the maximal line width — a floating-point
computation none of the claims depend on, so the buffered extent is carried
as state).  `pendingBegin1`/`pendingBegin2` are the indices of the
`beginGeometryInstruction1_`/`beginGeometryInstruction2_` references whose
skip slot `endGeometry` patches. -/
structure CanvasBuilder where
  pixelRatio : Int
  bufferedMaxExtent : Extent
  coordinates : List Int
  instructions : List Instr
  hitDetectionInstructions : List Instr
  state : FillStrokeState
  pendingBegin1 : Option Nat := none
  pendingBegin2 : Option Nat := none
deriving DecidableEq, Repr

/-- `applyPixelRatio(dashArray)`. -/
def applyPixelRatio (pixelRatio : Int) (dash : List Int) : List Int :=
  if pixelRatio == 1 then dash else dash.map (· * pixelRatio)

/-- `beginGeometry(geometry, feature)`: push `[BEGIN_GEOMETRY, feature, 0]`
onto both streams, remembering the two pushed instructions for patching. -/
def beginGeometry (b : CanvasBuilder) (feature : Nat) : CanvasBuilder :=
  { b with
      instructions := b.instructions ++ [Instr.beginGeometry feature 0]
      pendingBegin1 := some b.instructions.length
      hitDetectionInstructions :=
        b.hitDetectionInstructions ++ [Instr.beginGeometry feature 0]
      pendingBegin2 := some b.hitDetectionInstructions.length }

/-- Patch the skip slot (`instruction[2]`) of a BEGIN_GEOMETRY instruction. -/
def patchSkip : Instr → Nat → Instr
  | Instr.beginGeometry f _, n => Instr.beginGeometry f n
  | i, _ => i

/-- `endGeometry(geometry, feature)`: patch both pending BEGIN_GEOMETRY
instructions with the current stream lengths and push the END_GEOMETRY
instruction onto both streams.  Calling it without a preceding `beginGeometry`
would dereference null in JS — modelled by `none`. -/
def endGeometry (b : CanvasBuilder) (feature : Nat) : Option CanvasBuilder :=
  match b.pendingBegin1, b.pendingBegin2 with
  | some i1, some i2 =>
      some { b with
        instructions :=
          (b.instructions.set i1
            (patchSkip (b.instructions.getD i1 default) b.instructions.length))
            ++ [Instr.endGeometry feature]
        hitDetectionInstructions :=
          (b.hitDetectionInstructions.set i2
            (patchSkip (b.hitDetectionInstructions.getD i2 default)
              b.hitDetectionInstructions.length))
            ++ [Instr.endGeometry feature]
        pendingBegin1 := none
        pendingBegin2 := none }
  | _, _ => none

/-- `createStroke(state)`: the SET_STROKE_STYLE instruction with
pixel-ratio-scaled width, dash and dash offset.  The `getD` defaults are never
read: the callers only reach this with a defined stroke style. -/
def createStroke (b : CanvasBuilder) : Instr :=
  Instr.setStrokeStyle
    ⟨b.state.strokeStyle.getD 0, b.state.lineWidth.getD 0 * b.pixelRatio,
     b.state.lineCap.getD 0, b.state.lineJoin.getD 0, b.state.miterLimit.getD 0,
     applyPixelRatio b.pixelRatio (b.state.lineDash.getD []),
     b.state.lineDashOffset.getD 0 * b.pixelRatio⟩

/-- The LineStringBuilder override of `applyStroke`: flush a pending stroke,
reset `lastStroke`, push the SET_STROKE_STYLE instruction (the base-class
`applyStroke`) and open a new path. -/
def lsApplyStroke (b : CanvasBuilder) : CanvasBuilder :=
  let b1 := match b.state.lastStroke with
    | some n =>
        if n ≠ b.coordinates.length then
          { b with instructions := b.instructions ++ [Instr.stroke]
                   state := { b.state with lastStroke := some b.coordinates.length } }
        else b
    | none => b
  let b2 := { b1 with state := { b1.state with lastStroke := some 0 } }
  let b3 := { b2 with instructions := b2.instructions ++ [createStroke b2] }
  { b3 with instructions := b3.instructions ++ [Instr.beginPath] }

/-- `updateStrokeStyle(state, this.applyStroke)` as called by the LineString
builder: emit a style instruction only when the resolved stroke state differs
from the cached current one.  JS compares the dash arrays by reference and
then by `equals`; on the `Option (List Int)` model both collapse to value
inequality. -/
def updateStrokeStyleLS (b : CanvasBuilder) : CanvasBuilder :=
  let s := b.state
  if s.currentStrokeStyle ≠ s.strokeStyle ∨ s.currentLineCap ≠ s.lineCap ∨
      s.currentLineDash ≠ s.lineDash ∨
      s.currentLineDashOffset ≠ s.lineDashOffset ∨
      s.currentLineJoin ≠ s.lineJoin ∨ s.currentLineWidth ≠ s.lineWidth ∨
      s.currentMiterLimit ≠ s.miterLimit then
    let b1 := if s.strokeStyle ≠ none then lsApplyStroke b else b
    { b1 with state := { b1.state with
        currentStrokeStyle := s.strokeStyle
        currentLineCap := s.lineCap
        currentLineDash := s.lineDash
        currentLineDashOffset := s.lineDashOffset
        currentLineJoin := s.lineJoin
        currentLineWidth := s.lineWidth
        currentMiterLimit := s.miterLimit } }
  else b

/-- `drawFlatCoordinates_(flatCoordinates, offset, end, stride)`: append the
clipped coordinates and push one MOVE_TO_LINE_TO over the appended range onto
both streams. -/
def drawFlatCoordinates (b : CanvasBuilder) (flat : List Int)
    (offset endI stride : Nat) (hs : 0 < stride) : CanvasBuilder :=
  let myBegin := b.coordinates.length
  let newCoords := appendFlatCoordinates b.bufferedMaxExtent b.coordinates flat
    offset endI stride hs false false
  let myEnd := newCoords.length
  { b with
      coordinates := newCoords
      instructions := b.instructions ++ [Instr.moveToLineTo myBegin myEnd]
      hitDetectionInstructions :=
        b.hitDetectionInstructions ++ [Instr.moveToLineTo myBegin myEnd] }

/-- The hit-detection SET_STROKE_STYLE pushed by the line builders: raw
(unscaled) state values. -/
def hitStrokeInstr (b : CanvasBuilder) : Instr :=
  Instr.setStrokeStyle
    ⟨b.state.strokeStyle.getD 0, b.state.lineWidth.getD 0,
     b.state.lineCap.getD 0, b.state.lineJoin.getD 0, b.state.miterLimit.getD 0,
     b.state.lineDash.getD [], b.state.lineDashOffset.getD 0⟩

/-- `drawLineString(lineStringGeometry, feature)`.  The geometry is given by
its flat coordinates and stride. -/
def drawLineString (b : CanvasBuilder) (flat : List Int) (stride : Nat)
    (hs : 0 < stride) (feature : Nat) : Option CanvasBuilder :=
  if b.state.strokeStyle = none ∨ b.state.lineWidth = none then
    some b
  else
    let b1 := updateStrokeStyleLS b
    let b2 := beginGeometry b1 feature
    let b3 := { b2 with hitDetectionInstructions :=
      b2.hitDetectionInstructions ++ [hitStrokeInstr b2, Instr.beginPath] }
    let b4 := drawFlatCoordinates b3 flat 0 flat.length stride hs
    let b5 := { b4 with hitDetectionInstructions :=
      b4.hitDetectionInstructions ++ [Instr.stroke] }
    endGeometry b5 feature

/-- The `for` loop of `drawMultiLineString` over the sub-line `ends`. -/
def drawCoordsLoop (b : CanvasBuilder) (flat : List Int) (offset : Nat)
    (ends : List Nat) (stride : Nat) (hs : 0 < stride) : CanvasBuilder :=
  match ends with
  | [] => b
  | e :: rest =>
      drawCoordsLoop (drawFlatCoordinates b flat offset e stride hs) flat e
        rest stride hs

/-- `drawMultiLineString(multiLineStringGeometry, feature)`. -/
def drawMultiLineString (b : CanvasBuilder) (flat : List Int) (ends : List Nat)
    (stride : Nat) (hs : 0 < stride) (feature : Nat) : Option CanvasBuilder :=
  if b.state.strokeStyle = none ∨ b.state.lineWidth = none then
    some b
  else
    let b1 := updateStrokeStyleLS b
    let b2 := beginGeometry b1 feature
    let b3 := { b2 with hitDetectionInstructions :=
      b2.hitDetectionInstructions ++ [hitStrokeInstr b2, Instr.beginPath] }
    let b4 := drawCoordsLoop b3 flat 0 ends stride hs
    let b5 := { b4 with hitDetectionInstructions :=
      b4.hitDetectionInstructions ++ [Instr.stroke] }
    endGeometry b5 feature

/-! ## Canvas Executor (`execute_`, `ol/render/canvas/Executor.js`) -/

/-- Observable replay effects: drawing-surface calls and feature-callback
invocations, in order.  `drawOp i` stands for the surface work done by the
coordinate-drawing instruction at index `i` (CIRCLE, CUSTOM, DRAW_IMAGE,
DRAW_CHARS, MOVE_TO_LINE_TO), whose internals no claim depends on. -/
inductive REv where
  | fillCall
  | strokeCall
  | beginPathCall
  | closePathCall
  | drawOp (i : Nat)
  | setFill (style : Nat)
  | setStroke
  | callback (feature : Nat)
deriving DecidableEq, Repr

/-- Modelled from the spec: `intersects(extent1, extent2)` of `ol/extent.js`
(not under src/): the two boxes overlap. -/
def intersectsExtent (a b : Extent) : Bool :=
  decide (a.minX ≤ b.maxX) && decide (a.maxX ≥ b.minX) &&
    decide (a.minY ≤ b.maxY) && decide (a.maxY ≥ b.minY)

/-- The replay environment of one `execute_` call: the skipped-feature hash,
each feature's geometry extent (`none` = no geometry), the optional hit
extent, whether a feature callback was supplied and what it returns, and the
two inputs of the batch-size decision (`own`: the replayed array is the
executor's own `instructions`; `overlaps`). -/
structure ExecEnv where
  skipped : List Nat
  geom : Nat → Option Extent
  hitExtent : Option Extent
  hasCallback : Bool
  cbResult : Nat → Option Nat
  own : Bool
  overlaps : Bool

/-- `this.instructions != instructions || this.overlaps ? 0 : 200` -/
def batchSizeOf (own overlaps : Bool) : Nat :=
  if !own || overlaps then 0 else 200

/-- The `while (i < ii)` switch of `execute_`, with an explicit fuel (the JS
loop need not terminate on malformed skip fields; `none` = fuel ran out).
State: instruction index `i`, `pendingFill`, `pendingStroke`, the effect log.
Returns the callback short-circuit result and the final log. -/
def execLoop (env : ExecEnv) (instrs : List Instr) (batchSize : Nat) :
    Nat → Nat → Nat → Nat → List REv → Option (Option Nat × List REv)
  | 0, _, _, _, _ => none
  | fuel + 1, i, pendingFill, pendingStroke, evs =>
    if i < instrs.length then
      match instrs.getD i default with
      | Instr.beginGeometry f skip =>
          if (env.skipped ≠ [] ∧ f ∈ env.skipped) ∨ env.geom f = none then
            execLoop env instrs batchSize fuel skip pendingFill pendingStroke evs
          else
            match env.hitExtent with
            | some he =>
                if intersectsExtent he ((env.geom f).getD ⟨0, 0, 0, 0⟩) = false then
                  execLoop env instrs batchSize fuel (skip + 1) pendingFill
                    pendingStroke evs
                else
                  execLoop env instrs batchSize fuel (i + 1) pendingFill
                    pendingStroke evs
            | none =>
                execLoop env instrs batchSize fuel (i + 1) pendingFill
                  pendingStroke evs
      | Instr.beginPath =>
          if pendingFill > batchSize then
            if pendingStroke > batchSize then
              execLoop env instrs batchSize fuel (i + 1) 0 0
                (evs ++ [REv.fillCall, REv.strokeCall, REv.beginPathCall])
            else
              if pendingStroke = 0 then
                execLoop env instrs batchSize fuel (i + 1) 0 0
                  (evs ++ [REv.fillCall, REv.beginPathCall])
              else
                execLoop env instrs batchSize fuel (i + 1) 0 pendingStroke
                  (evs ++ [REv.fillCall])
          else
            if pendingStroke > batchSize then
              if pendingFill = 0 then
                execLoop env instrs batchSize fuel (i + 1) 0 0
                  (evs ++ [REv.strokeCall, REv.beginPathCall])
              else
                execLoop env instrs batchSize fuel (i + 1) pendingFill 0
                  (evs ++ [REv.strokeCall])
            else
              if pendingFill = 0 ∧ pendingStroke = 0 then
                execLoop env instrs batchSize fuel (i + 1) pendingFill
                  pendingStroke (evs ++ [REv.beginPathCall])
              else
                execLoop env instrs batchSize fuel (i + 1) pendingFill
                  pendingStroke evs
      | Instr.circle _ =>
          execLoop env instrs batchSize fuel (i + 1) pendingFill pendingStroke
            (evs ++ [REv.drawOp i])
      | Instr.closePath =>
          execLoop env instrs batchSize fuel (i + 1) pendingFill pendingStroke
            (evs ++ [REv.closePathCall])
      | Instr.custom _ _ =>
          execLoop env instrs batchSize fuel (i + 1) pendingFill pendingStroke
            (evs ++ [REv.drawOp i])
      | Instr.drawImage _ _ =>
          execLoop env instrs batchSize fuel (i + 1) pendingFill pendingStroke
            (evs ++ [REv.drawOp i])
      | Instr.drawChars _ _ =>
          execLoop env instrs batchSize fuel (i + 1) pendingFill pendingStroke
            (evs ++ [REv.drawOp i])
      | Instr.endGeometry f =>
          if env.hasCallback then
            match env.cbResult f with
            | some r => some (some r, evs ++ [REv.callback f])
            | none =>
                execLoop env instrs batchSize fuel (i + 1) pendingFill
                  pendingStroke (evs ++ [REv.callback f])
          else
            execLoop env instrs batchSize fuel (i + 1) pendingFill pendingStroke
              evs
      | Instr.fill =>
          if batchSize ≠ 0 then
            execLoop env instrs batchSize fuel (i + 1) (pendingFill + 1)
              pendingStroke evs
          else
            execLoop env instrs batchSize fuel (i + 1) pendingFill pendingStroke
              (evs ++ [REv.fillCall])
      | Instr.moveToLineTo _ _ =>
          execLoop env instrs batchSize fuel (i + 1) pendingFill pendingStroke
            (evs ++ [REv.drawOp i])
      | Instr.setFillStyle style _align =>
          if pendingFill > 0 then
            if pendingStroke > 0 then
              execLoop env instrs batchSize fuel (i + 1) 0 0
                (evs ++ [REv.fillCall, REv.strokeCall, REv.setFill style])
            else
              execLoop env instrs batchSize fuel (i + 1) 0 pendingStroke
                (evs ++ [REv.fillCall, REv.setFill style])
          else
            execLoop env instrs batchSize fuel (i + 1) pendingFill pendingStroke
              (evs ++ [REv.setFill style])
      | Instr.setStrokeStyle _v =>
          if pendingStroke > 0 then
            execLoop env instrs batchSize fuel (i + 1) pendingFill 0
              (evs ++ [REv.strokeCall, REv.setStroke])
          else
            execLoop env instrs batchSize fuel (i + 1) pendingFill pendingStroke
              (evs ++ [REv.setStroke])
      | Instr.stroke =>
          if batchSize ≠ 0 then
            execLoop env instrs batchSize fuel (i + 1) pendingFill
              (pendingStroke + 1) evs
          else
            execLoop env instrs batchSize fuel (i + 1) pendingFill pendingStroke
              (evs ++ [REv.strokeCall])
    else
      some (none,
        (if pendingFill > 0 then
          (if pendingStroke > 0 then evs ++ [REv.fillCall, REv.strokeCall]
           else evs ++ [REv.fillCall])
         else
          (if pendingStroke > 0 then evs ++ [REv.strokeCall] else evs)))

/-- `execute_(context, transform, skippedFeaturesHash, instructions,
snapToPixel, featureCallback, opt_hitExtent)`, restricted to its observable
effects.  The pixel-coordinate transform cache and the snap flag only affect
coordinates inside draw calls, which `REv.drawOp` abstracts. -/
def executeI (env : ExecEnv) (instrs : List Instr) (fuel : Nat) :
    Option (Option Nat × List REv) :=
  execLoop env instrs (batchSizeOf env.own env.overlaps) fuel 0 0 0 []

/-! ## reverseHitDetectionInstructions (Builder.js 351-372, Executor.js
911-932) -/

/-- Modelled from the spec: `reverseSubArray(arr, begin, end)` (ol/array.js,
not under src/) reverses `arr` in place between the indices `begin` and
`end`, both inclusive (the spec: "re-reversing each BEGIN/END-bracketed
sub-range back to forward order"). -/
def reverseSubArray (l : List Instr) (b e : Nat) : List Instr :=
  l.take b ++ ((l.drop b).take (e + 1 - b)).reverse ++ l.drop (e + 1)

/-- The `for (i = 0; i < n; ++i)` loop of `reverseHitDetectionInstructions`:
`begin` (here `beg`, `-1` when unset) records the last END_GEOMETRY index;
at a BEGIN_GEOMETRY the loop writes the current index into the skip field
(`instruction[2] = i`), reverses the `begin..i` block and resets `begin`.
The loop advances `i` by exactly one each iteration, so `n` steps of fuel
are exact. -/
def rhdLoop (n : Nat) : Nat → List Instr → Int → Nat → List Instr
  | 0, arr, _, _ => arr
  | fuel + 1, arr, beg, i =>
    if i < n then
      match arr.getD i default with
      | Instr.endGeometry _ => rhdLoop n fuel arr (Int.ofNat i) (i + 1)
      | Instr.beginGeometry f _ =>
          rhdLoop n fuel
            (reverseSubArray (arr.set i (Instr.beginGeometry f i)) beg.toNat i)
            (-1) (i + 1)
      | _ => rhdLoop n fuel arr beg (i + 1)
    else arr

/-- `reverseHitDetectionInstructions()`: step 1 reverses the whole stream,
step 2 runs the block-reversal loop with `begin = -1` over the captured
length `n`. -/
def reverseHitDetectionInstructions (l : List Instr) : List Instr :=
  rhdLoop l.length l.length l.reverse (-1) 0

/-- An instruction that is neither BEGIN_GEOMETRY nor END_GEOMETRY. -/
def isPlain : Instr → Bool
  | Instr.beginGeometry _ _ => false
  | Instr.endGeometry _ => false
  | _ => true

/-- A hit-detection stream made of feature blocks `(feature, skip, body)`,
each laid out as `BEGIN_GEOMETRY(feature, skip) ; body ; END_GEOMETRY
(feature)`. -/
def blockStream (blocks : List (Nat × Nat × List Instr)) : List Instr :=
  (blocks.map fun b =>
    Instr.beginGeometry b.1 b.2.1 :: b.2.2 ++ [Instr.endGeometry b.1]).flatten

/-- One feature block after the whole-stream reversal of step 1. -/
def revBlock (b : Nat × Nat × List Instr) : List Instr :=
  Instr.endGeometry b.1 :: b.2.2.reverse ++ [Instr.beginGeometry b.1 b.2.1]

/-- A block list after the whole-stream reversal of step 1. -/
def revBlocks (blocks : List (Nat × Nat × List Instr)) : List Instr :=
  (blocks.map revBlock).flatten

/-- Modelled from the spec: the expected result of hit-stream inversion,
starting at output position `p` — every block keeps its original internal
order, and each BEGIN_GEOMETRY's skip field holds the index of its own
block's END_GEOMETRY in the resulting list (`p + body.length + 1`). -/
def expectedFrom : Nat → List (Nat × Nat × List Instr) → List Instr
  | _, [] => []
  | p, b :: rest =>
      Instr.beginGeometry b.1 (p + b.2.2.length + 1) :: b.2.2 ++
        Instr.endGeometry b.1 :: expectedFrom (p + b.2.2.length + 2) rest

/-! ## ExecutorGroup.forEachFeatureAtCoordinate
(build/ol/render/canvas/ExecutorGroup.js 238-269) -/

/-- Modelled from the spec: the fixed kind-priority list `ORDER`
(ol/render/replay.js, not under src/) — polygons under circles under lines
under images under text under the default kind. -/
def ORDER : List ReplayKind :=
  [ReplayKind.polygon, ReplayKind.circle, ReplayKind.lineString,
   ReplayKind.image, ReplayKind.text, ReplayKind.defaultKind]

/-- One executor visit during hit detection: `run` executes the executor's
hit-detection replay, `defer` pushes it to `declutterReplays` instead. -/
inductive HitEv where
  | run (z : Int) (kind : ReplayKind)
  | defer (z : Int) (kind : ReplayKind)
deriving DecidableEq, Repr

/-- `replayType == ReplayType.IMAGE || replayType == ReplayType.TEXT`. -/
def isImageOrText : ReplayKind → Bool
  | ReplayKind.image => true
  | ReplayKind.text => true
  | _ => false

/-- The inner `for (j = ORDER.length - 1; j >= 0; --j)` loop of
`forEachFeatureAtCoordinate`, walking the (already reversed) kind list of
one z-index bucket: undefined executor slots are skipped; with
`declutterReplays` supplied, IMAGE and TEXT executors are deferred; any
other defined executor's hit-detection replay runs, and a truthy result
returns immediately.  A bucket entry `some r` is a defined executor whose
replay would produce `r` (`none` = falsy). -/
def hitInner (declutter : Bool) (z : Int)
    (bucket : ReplayKind → Option (Option Nat)) :
    List ReplayKind → Option Nat × List HitEv
  | [] => (none, [])
  | k :: rest =>
    match bucket k with
    | none => hitInner declutter z bucket rest
    | some r =>
      if declutter && isImageOrText k then
        ((hitInner declutter z bucket rest).1,
          HitEv.defer z k :: (hitInner declutter z bucket rest).2)
      else
        match r with
        | some v => (some v, [HitEv.run z k])
        | none =>
            ((hitInner declutter z bucket rest).1,
              HitEv.run z k :: (hitInner declutter z bucket rest).2)

/-- The outer `for (i = zs.length - 1; i >= 0; --i)` loop over the sorted
z-index keys, here walked over the descending key list: a truthy result
from a bucket returns immediately. -/
def hitOuter (declutter : Bool)
    (zmap : Int → ReplayKind → Option (Option Nat)) :
    List Int → Option Nat × List HitEv
  | [] => (none, [])
  | z :: rest =>
    match (hitInner declutter z (zmap z) ORDER.reverse).1 with
    | some v => (some v, (hitInner declutter z (zmap z) ORDER.reverse).2)
    | none =>
        ((hitOuter declutter zmap rest).1,
          (hitInner declutter z (zmap z) ORDER.reverse).2
            ++ (hitOuter declutter zmap rest).2)

/-- Modelled from the spec: `zs.sort(numberSafeCompareFunction)`
(ol/array.js, not under src/) puts the z-index keys in ascending numeric
order; the outer loop then walks them from the top, i.e. descending. -/
def sortDesc (zs : List Int) : List Int :=
  (List.insertionSort (fun a b => a ≤ b) zs).reverse

/-- `forEachFeatureAtCoordinate(...)`, restricted to its executor
traversal: sort the z-index keys numerically, walk them descending, walk
`ORDER` backwards within each bucket, run each defined executor (deferring
IMAGE/TEXT when decluttering) and return the first truthy replay result. -/
def forEachFeatureAtCoordinate (declutter : Bool) (zs : List Int)
    (zmap : Int → ReplayKind → Option (Option Nat)) :
    Option Nat × List HitEv :=
  hitOuter declutter zmap (sortDesc zs)

/-- Modelled from the spec: the flat hit-test priority enumeration — every
defined executor slot, by descending z-index and, within one z-index, by
descending kind priority (the reverse of `ORDER`). -/
def enumDefined (zmap : Int → ReplayKind → Option (Option Nat))
    (zsDesc : List Int) : List (Int × ReplayKind) :=
  zsDesc.flatMap fun z => ORDER.reverse.filterMap fun k =>
    if (zmap z k).isSome then some (z, k) else none

/-- Modelled from the spec: scan the flat priority enumeration, running
each executor in turn and stopping at the first truthy result. -/
def specScan (zmap : Int → ReplayKind → Option (Option Nat)) :
    List (Int × ReplayKind) → Option Nat × List HitEv
  | [] => (none, [])
  | e :: rest =>
    match zmap e.1 e.2 with
    | some (some v) => (some v, [HitEv.run e.1 e.2])
    | _ =>
        ((specScan zmap rest).1,
          HitEv.run e.1 e.2 :: (specScan zmap rest).2)

/-- The executor map of the C6 witness: at z-index 2 a falsy POLYGON
executor and a truthy TEXT executor (result 9), at z-index 1 a truthy
LINE_STRING executor (result 4), nothing at z-index 0. -/
def c6WitnessMap : Int → ReplayKind → Option (Option Nat) := fun z k =>
  if z = 2 ∧ k = ReplayKind.text then some (some 9)
  else if z = 2 ∧ k = ReplayKind.polygon then some none
  else if z = 1 ∧ k = ReplayKind.lineString then some (some 4)
  else none

/-! ## Lemmas about the circle-mask cache -/

lemma getD_set {α : Type} (l : List α) (i j : Nat) (a d : α) :
    (l.set i a).getD j d = if i = j ∧ j < l.length then a else l.getD j d := by
  simp only [List.getD_eq_getElem?_getD, List.getElem?_set]
  by_cases hij : i = j
  · subst hij
    by_cases hj : i < l.length
    · simp [hj]
    · simp [hj, List.getElem?_eq_none (Nat.le_of_not_lt hj)]
  · simp [hij]

lemma gridSet_dims {arr : Grid} {n : Nat} (h : gridDims arr n) (x y : Nat) :
    gridDims (gridSet arr x y) n := by
  unfold gridSet
  cases hx : arr.get? x with
  | none => exact h
  | some row =>
    refine ⟨by simpa using h.1, ?_⟩
    intro r hr
    rcases List.mem_or_eq_of_mem_set hr with hmem | hnew
    · exact h.2 r hmem
    · rw [hnew]
      simpa using h.2 row (List.get?_mem hx)

lemma fillRange_dims (arr : Grid) (lo hi y n : Nat) (h : gridDims arr n) :
    gridDims (fillRange arr lo hi y) n := by
  rw [fillRange]
  split
  · exact fillRange_dims _ _ _ _ _ (gridSet_dims h _ _)
  · exact h
termination_by hi - lo
decreasing_by omega

lemma fillMiddle_dims (arr : Grid) (x y n : Nat) (h : gridDims arr n) :
    gridDims (fillCircleArrayRowToMiddle arr x y) n := by
  unfold fillCircleArrayRowToMiddle
  split
  · exact fillRange_dims _ _ _ _ _ h
  · exact fillRange_dims _ _ _ _ _ h

lemma fill8_dims (arr : Grid) (radius : Nat) (x y : Int) (n : Nat)
    (h : gridDims arr n) : gridDims (fill8 arr radius x y) n := by
  unfold fill8
  exact fillMiddle_dims _ _ _ _ (fillMiddle_dims _ _ _ _ (fillMiddle_dims _ _ _ _
    (fillMiddle_dims _ _ _ _ (fillMiddle_dims _ _ _ _ (fillMiddle_dims _ _ _ _
    (fillMiddle_dims _ _ _ _ (fillMiddle_dims _ _ _ _ h)))))))

lemma circleLoop_dims (arr : Grid) (radius : Nat) (x y error : Int) (n : Nat)
    (h : gridDims arr n) : gridDims (circleLoop arr radius x y error) n := by
  rw [circleLoop]
  split
  · split
    · exact circleLoop_dims _ _ _ _ _ _ (fill8_dims _ _ _ _ _ h)
    · exact circleLoop_dims _ _ _ _ _ _ (fill8_dims _ _ _ _ _ h)
  · exact h
termination_by (x + 1 - y).toNat
decreasing_by
  · omega
  · omega

lemma gridSet_mono {arr : Grid} {i j : Nat} (h : cellTrue arr i j) (u v : Nat) :
    cellTrue (gridSet arr u v) i j := by
  unfold gridSet
  cases hx : arr.get? u with
  | none => exact h
  | some row =>
    unfold cellTrue at h ⊢
    rw [getD_set]
    split
    · next hc =>
      obtain ⟨rfl, _hlt⟩ := hc
      have hrow : arr.getD u [] = row := by
        rw [List.getD_eq_getElem?_getD, ← List.get?_eq_getElem?, hx]
        rfl
      rw [hrow] at h
      rw [getD_set]
      split
      · rfl
      · exact h
    · exact h

lemma fillRange_mono {arr : Grid} {i j : Nat} (h : cellTrue arr i j)
    (lo hi y : Nat) : cellTrue (fillRange arr lo hi y) i j := by
  rw [fillRange]
  split
  · exact fillRange_mono (gridSet_mono h _ _) _ _ _
  · exact h
termination_by hi - lo
decreasing_by omega

lemma fillMiddle_mono {arr : Grid} {i j : Nat} (h : cellTrue arr i j)
    (x y : Nat) : cellTrue (fillCircleArrayRowToMiddle arr x y) i j := by
  unfold fillCircleArrayRowToMiddle
  split
  · exact fillRange_mono h _ _ _
  · exact fillRange_mono h _ _ _

lemma fill8_mono {arr : Grid} {i j : Nat} (h : cellTrue arr i j)
    (radius : Nat) (x y : Int) : cellTrue (fill8 arr radius x y) i j := by
  unfold fill8
  exact fillMiddle_mono (fillMiddle_mono (fillMiddle_mono (fillMiddle_mono
    (fillMiddle_mono (fillMiddle_mono (fillMiddle_mono (fillMiddle_mono h _ _)
    _ _) _ _) _ _) _ _) _ _) _ _) _ _

lemma circleLoop_mono {arr : Grid} {i j : Nat} (h : cellTrue arr i j)
    (radius : Nat) (x y error : Int) : cellTrue (circleLoop arr radius x y error) i j := by
  rw [circleLoop]
  split
  · split
    · exact circleLoop_mono (fill8_mono h _ _ _) _ _ _ _
    · exact circleLoop_mono (fill8_mono h _ _ _) _ _ _ _
  · exact h
termination_by (x + 1 - y).toNat
decreasing_by
  · omega
  · omega

lemma gridSet_self (arr : Grid) (x y : Nat) (hx : x < arr.length)
    (hy : y < (arr.getD x []).length) : cellTrue (gridSet arr x y) x y := by
  unfold gridSet
  cases hget : arr.get? x with
  | none => exact absurd (List.get?_eq_none.mp hget) (by omega)
  | some row =>
    have hrow : arr.getD x [] = row := by
      rw [List.getD_eq_getElem?_getD, ← List.get?_eq_getElem?, hget]
      rfl
    unfold cellTrue
    rw [getD_set, if_pos ⟨rfl, hx⟩, getD_set,
      if_pos ⟨rfl, by rw [← hrow]; exact hy⟩]

lemma fillMiddle_center (arr : Grid) (r : Nat) (hr : 1 ≤ r)
    (hd : gridDims arr (2 * r + 1)) :
    cellTrue (fillCircleArrayRowToMiddle arr (2 * r) r) r r := by
  have hrad : arr.length / 2 = r := by rw [hd.1]; omega
  unfold fillCircleArrayRowToMiddle
  rw [hrad, if_pos (by omega : r ≤ 2 * r)]
  rw [fillRange, if_pos (by omega : r < 2 * r)]
  refine fillRange_mono (gridSet_self arr r r ?_ ?_) _ _ _
  · rw [hd.1]; omega
  · have hlt : r < arr.length := by rw [hd.1]; omega
    have hmem : arr.getD r [] ∈ arr := by
      rw [List.getD_eq_getElem?_getD, List.getElem?_eq_getElem hlt]
      exact List.getElem_mem hlt
    rw [hd.2 _ hmem]; omega

lemma fill8_center (arr : Grid) (r : Nat) (hr : 1 ≤ r)
    (hd : gridDims arr (2 * r + 1)) : cellTrue (fill8 arr r (↑r) 0) r r := by
  unfold fill8
  have h1 : ((r : Int) + (r : Int)).toNat = 2 * r := by omega
  have h2 : ((r : Int) + 0).toNat = r := by omega
  simp only [h1, h2]
  exact fillMiddle_mono (fillMiddle_mono (fillMiddle_mono (fillMiddle_mono
    (fillMiddle_mono (fillMiddle_mono (fillMiddle_mono
    (fillMiddle_center arr r hr hd) _ _) _ _) _ _) _ _) _ _) _ _) _ _

lemma circleLoop_center (arr : Grid) (r : Nat) (hr : 1 ≤ r)
    (hd : gridDims arr (2 * r + 1)) : cellTrue (circleLoop arr r (↑r) 0 0) r r := by
  rw [circleLoop]
  rw [dif_pos (by omega : (0 : Int) ≤ (r : Int))]
  split
  · exact circleLoop_mono (fill8_center arr r hr hd) _ _ _ _
  · exact circleLoop_mono (fill8_center arr r hr hd) _ _ _ _

lemma mkGrid_dims (n : Nat) : gridDims (mkGrid n) n := by
  constructor
  · simp [mkGrid]
  · intro row hrow
    rw [List.eq_of_mem_replicate hrow]
    simp

/-! ## Claim theorems: circle-mask cache -/

/-- C10: for every non-negative integer radius and every reachable state of the
module cache, `getCircleArray(radius)` returns a `(2·radius+1)`-row square grid
(each row of length `2·radius+1`; its cells hold only `true` or `undefined` by
the cell type of the model), whose centre cell `[radius][radius]` is `true`;
the updated cache is again a reachable-shape cache, and a second call with the
same radius returns exactly the same array and cache (memoization). -/
theorem C10_getCircleArray (cache : CircleCache) (radius : Nat)
    (hv : circleCacheValid cache) :
    gridDims (getCircleArray cache radius).1 (2 * radius + 1) ∧
    cellTrue (getCircleArray cache radius).1 radius radius ∧
    circleCacheValid (getCircleArray cache radius).2 ∧
    getCircleArray (getCircleArray cache radius).2 radius =
      ((getCircleArray cache radius).1, (getCircleArray cache radius).2) := by
  cases hfind : cache.find? (fun p => p.1 == radius) with
  | some p =>
    have hmem := List.mem_of_find?_eq_some hfind
    have hkey : p.1 = radius := by simpa using List.find?_some hfind
    obtain ⟨hdims, hcenter⟩ := hv.1 p hmem
    have heq : getCircleArray cache radius = (p.2, cache) := by
      unfold getCircleArray
      rw [hfind]
      rfl
    rw [heq]
    rw [hkey] at hdims hcenter
    exact ⟨hdims, hcenter, hv, by rw [heq]⟩
  | none =>
    have hr : 1 ≤ radius := by
      by_contra h0
      have hz : radius = 0 := by omega
      subst hz
      have h2 := hv.2
      rw [hfind] at h2
      simp at h2
    have hmk : gridDims (mkGrid (radius * 2 + 1)) (2 * radius + 1) := by
      have h21 : radius * 2 + 1 = 2 * radius + 1 := by ring
      rw [h21]
      exact mkGrid_dims _
    set A := circleLoop (mkGrid (radius * 2 + 1)) radius (↑radius) 0 0 with hA
    have hdims : gridDims A (2 * radius + 1) := circleLoop_dims _ _ _ _ _ _ hmk
    have hcent : cellTrue A radius radius := circleLoop_center _ _ hr hmk
    have heq : getCircleArray cache radius = (A, (radius, A) :: cache) := by
      unfold getCircleArray
      rw [hfind]
      rfl
    rw [heq]
    refine ⟨hdims, hcent, ⟨?_, ?_⟩, ?_⟩
    · intro p hp
      rcases List.mem_cons.mp hp with hnew | hold
      · rw [hnew]
        exact ⟨hdims, hcent⟩
      · exact hv.1 p hold
    · rw [List.find?_cons_of_neg _ (by simp; omega)]
      exact hv.2
    · unfold getCircleArray
      rw [List.find?_cons_of_pos _ (by simp)]
      rfl

/-- Witness for C10: the initial cache is valid and the theorem applies to it
at radius 2. -/
theorem C10_getCircleArray_witness :
    circleCacheValid circleArrayCache0 ∧
    (gridDims (getCircleArray circleArrayCache0 2).1 (2 * 2 + 1) ∧
     cellTrue (getCircleArray circleArrayCache0 2).1 2 2 ∧
     circleCacheValid (getCircleArray circleArrayCache0 2).2 ∧
     getCircleArray (getCircleArray circleArrayCache0 2).2 2 =
       ((getCircleArray circleArrayCache0 2).1, (getCircleArray circleArrayCache0 2).2)) :=
  ⟨by decide, C10_getCircleArray circleArrayCache0 2 (by decide)⟩

/-! ## Claim theorems: BuilderGroup -/

lemma getBuilderKeyed_idem (g : CanvasBuilderGroup) (key : String)
    (k : ReplayKind) :
    getBuilderKeyed (getBuilderKeyed g key k).2 key k =
      ((getBuilderKeyed g key k).1, (getBuilderKeyed g key k).2) := by
  cases h1 : g.buildersByZIndex.find? (fun p => p.1 == key) with
  | none =>
    have heq1 : getBuilderKeyed g key k =
        (⟨g.nextUid, k⟩,
         ⟨g.nextUid + 1, (key, [(k, ⟨g.nextUid, k⟩)]) :: g.buildersByZIndex⟩) := by
      simp only [getBuilderKeyed, h1, Option.map_none']
    rw [heq1]
    show getBuilderKeyed
        ⟨g.nextUid + 1, (key, [(k, ⟨g.nextUid, k⟩)]) :: g.buildersByZIndex⟩ key k =
      (⟨g.nextUid, k⟩,
       ⟨g.nextUid + 1, (key, [(k, ⟨g.nextUid, k⟩)]) :: g.buildersByZIndex⟩)
    have h3 : ((key, [(k, (⟨g.nextUid, k⟩ : BuilderRef))]) ::
        g.buildersByZIndex).find? (fun p => p.1 == key) =
        some (key, [(k, ⟨g.nextUid, k⟩)]) :=
      List.find?_cons_of_pos _ (by simp)
    simp only [getBuilderKeyed, h3, Option.map_some']
    have h4 : [(k, (⟨g.nextUid, k⟩ : BuilderRef))].find? (fun p => p.1 == k) =
        some (k, ⟨g.nextUid, k⟩) := List.find?_cons_of_pos _ (by simp)
    simp only [h4, Option.map_some']
  | some pr =>
    cases h2 : pr.2.find? (fun p => p.1 == k) with
    | some q =>
      have heq1 : getBuilderKeyed g key k = (q.2, g) := by
        simp only [getBuilderKeyed, h1, Option.map_some', h2]
      rw [heq1]
      show getBuilderKeyed g key k = (q.2, g)
      exact heq1
    | none =>
      have heq1 : getBuilderKeyed g key k =
          (⟨g.nextUid, k⟩,
           ⟨g.nextUid + 1,
            (key, (k, ⟨g.nextUid, k⟩) :: pr.2) :: g.buildersByZIndex⟩) := by
        simp only [getBuilderKeyed, h1, Option.map_some', h2, Option.map_none']
      rw [heq1]
      show getBuilderKeyed
          ⟨g.nextUid + 1,
           (key, (k, ⟨g.nextUid, k⟩) :: pr.2) :: g.buildersByZIndex⟩ key k =
        (⟨g.nextUid, k⟩,
         ⟨g.nextUid + 1,
          (key, (k, ⟨g.nextUid, k⟩) :: pr.2) :: g.buildersByZIndex⟩)
      have h3 : ((key, (k, (⟨g.nextUid, k⟩ : BuilderRef)) :: pr.2) ::
          g.buildersByZIndex).find? (fun p => p.1 == key) =
          some (key, (k, ⟨g.nextUid, k⟩) :: pr.2) :=
        List.find?_cons_of_pos _ (by simp)
      simp only [getBuilderKeyed, h3, Option.map_some']
      have h4 : ((k, (⟨g.nextUid, k⟩ : BuilderRef)) :: pr.2).find?
          (fun p => p.1 == k) = some (k, ⟨g.nextUid, k⟩) :=
        List.find?_cons_of_pos _ (by simp)
      simp only [h4, Option.map_some']

/-- C8: `getBuilder` is idempotent — a second call with the same z-index and
replay kind returns the identical builder instance and leaves the group
unchanged — and an undefined z-index is normalized to the key "0", so
`getBuilder(undefined, kind)` and `getBuilder(0, kind)` coincide; hence at
most one builder exists per (z-index key, kind) pair. -/
theorem C8_getBuilder_idempotent (g : CanvasBuilderGroup) (zIndex : Option Int)
    (k : ReplayKind) :
    getBuilder (getBuilder g zIndex k).2 zIndex k =
      ((getBuilder g zIndex k).1, (getBuilder g zIndex k).2) ∧
    getBuilder g none k = getBuilder g (some 0) k := by
  constructor
  · exact getBuilderKeyed_idem g (zIndexKeyOf zIndex) k
  · have hkey : zIndexKeyOf none = zIndexKeyOf (some 0) := rfl
    unfold getBuilder
    rw [hkey]

/-! ## Claim theorems: WebGL helper -/

/-- C4 counterexample: on a helper whose context is not lost and whose buffer
cache has no entry for the buffer (it was never bound), `deleteBuffer` fails
(in JS it throws reading `.buffer` of `undefined`), contradicting the claim
that the call never fails regardless of context state. -/
theorem C4_deleteBuffer_counterexample :
    deleteBuffer ⟨[], [], [], none, 0, [], false⟩ 1 = none := rfl

/-- C4 (amended): for a buffer that was never bound, `deleteBuffer` is a
harmless no-op — the helper is returned completely unchanged and no GPU call
is issued — only when the context is lost; when the context is active the
lookup yields no cache entry and the call fails on dereferencing it. -/
theorem C4_deleteBuffer_amended (h : WebGLHelper) (key : Nat)
    (habs : h.bufferCache.find? (fun p => p.1 == key) = none) :
    (h.contextLost = true → deleteBuffer h key = some h) ∧
    (h.contextLost = false → deleteBuffer h key = none) := by
  have hfilter : h.bufferCache.filter (fun p => !(p.1 == key)) = h.bufferCache := by
    apply List.filter_eq_self.mpr
    intro p hp
    have hne := List.find?_eq_none.mp habs p hp
    simpa using hne
  constructor
  · intro hlost
    have hcond : (!h.contextLost) = false := by rw [hlost]; rfl
    unfold deleteBuffer
    rw [habs, hcond]
    show some { h with bufferCache := h.bufferCache.filter (fun p => !(p.1 == key)) } = some h
    rw [hfilter]
  · intro hact
    have hcond : (!h.contextLost) = true := by rw [hact]; rfl
    unfold deleteBuffer
    rw [habs, hcond]
    rfl

/-- C4 witness: a lost-context helper with an empty buffer cache. -/
theorem C4_deleteBuffer_amended_witness :
    (WebGLHelper.bufferCache ⟨[], [], [], none, 0, [], true⟩).find?
        (fun p => p.1 == 7) = none ∧
    ((WebGLHelper.contextLost ⟨[], [], [], none, 0, [], true⟩ = true →
        deleteBuffer ⟨[], [], [], none, 0, [], true⟩ 7 =
          some ⟨[], [], [], none, 0, [], true⟩) ∧
     (WebGLHelper.contextLost ⟨[], [], [], none, 0, [], true⟩ = false →
        deleteBuffer ⟨[], [], [], none, 0, [], true⟩ 7 = none)) :=
  ⟨rfl, C4_deleteBuffer_amended ⟨[], [], [], none, 0, [], true⟩ 7 rfl⟩

/-- C5: after `handleWebGLContextLost`, the buffer, shader and program caches
are empty and the current program is null; a subsequent `getProgram` with the
same previously-cached shader pair takes the creation path — it creates a
fresh program (a handle distinct from the one cached before the loss),
attaches two shaders and links — instead of returning the stale handle. -/
theorem C5_contextLost_recompile (h : WebGLHelper) (f v p0 : Nat)
    (hcached : (h.programCache.find? (fun q => q.1 == (f, v))).map (·.2) = some p0)
    (hwf : ∀ q ∈ h.programCache, q.2 < h.nextHandle) :
    getProgram h f v = (p0, h) ∧
    (handleWebGLContextLost h).bufferCache = [] ∧
    (handleWebGLContextLost h).shaderCache = [] ∧
    (handleWebGLContextLost h).programCache = [] ∧
    (handleWebGLContextLost h).currentProgram = none ∧
    (getProgram (handleWebGLContextLost h) f v).1 = h.nextHandle ∧
    (getProgram (handleWebGLContextLost h) f v).1 ≠ p0 ∧
    ∃ ev1 ev2 s1 s2,
      (getProgram (handleWebGLContextLost h) f v).2.events =
        h.events ++ [GLEvent.createProgram h.nextHandle] ++ ev1 ++
          [GLEvent.attachShader h.nextHandle s1] ++ ev2 ++
          [GLEvent.attachShader h.nextHandle s2,
           GLEvent.linkProgram h.nextHandle] := by
  have hp0 : p0 < h.nextHandle := by
    cases hf1 : h.programCache.find? (fun q => q.1 == (f, v)) with
    | none => rw [hf1] at hcached; simp at hcached
    | some q =>
      rw [hf1] at hcached
      simp at hcached
      rw [← hcached]
      exact hwf q (List.mem_of_find?_eq_some hf1)
  refine ⟨?_, rfl, rfl, rfl, rfl, rfl, ?_, ?_⟩
  · unfold getProgram
    rw [hcached]
  · have h6 : (getProgram (handleWebGLContextLost h) f v).1 = h.nextHandle := rfl
    rw [h6]
    omega
  · by_cases hfv : f = v
    · subst hfv
      refine ⟨[GLEvent.createShader (h.nextHandle + 1),
        GLEvent.compileShader (h.nextHandle + 1)], [],
        h.nextHandle + 1, h.nextHandle + 1, ?_⟩
      simp [getProgram, getShader, attachEvents, handleWebGLContextLost]
    · refine ⟨[GLEvent.createShader (h.nextHandle + 1),
        GLEvent.compileShader (h.nextHandle + 1)],
        [GLEvent.createShader (h.nextHandle + 2),
         GLEvent.compileShader (h.nextHandle + 2)],
        h.nextHandle + 1, h.nextHandle + 2, ?_⟩
      simp [getProgram, getShader, attachEvents, handleWebGLContextLost, hfv]

/-- C5 witness: a helper holding one cached program (handle 5) for the shader
pair (1, 2). -/
theorem C5_contextLost_recompile_witness :
    ((WebGLHelper.programCache ⟨[], [], [((1, 2), 5)], none, 6, [], false⟩).find?
        (fun q => q.1 == (1, 2))).map (·.2) = some 5 ∧
    (∀ q ∈ WebGLHelper.programCache ⟨[], [], [((1, 2), 5)], none, 6, [], false⟩,
        q.2 < WebGLHelper.nextHandle ⟨[], [], [((1, 2), 5)], none, 6, [], false⟩) ∧
    (getProgram ⟨[], [], [((1, 2), 5)], none, 6, [], false⟩ 1 2 =
        (5, ⟨[], [], [((1, 2), 5)], none, 6, [], false⟩) ∧
      (handleWebGLContextLost ⟨[], [], [((1, 2), 5)], none, 6, [], false⟩).bufferCache = [] ∧
      (handleWebGLContextLost ⟨[], [], [((1, 2), 5)], none, 6, [], false⟩).shaderCache = [] ∧
      (handleWebGLContextLost ⟨[], [], [((1, 2), 5)], none, 6, [], false⟩).programCache = [] ∧
      (handleWebGLContextLost ⟨[], [], [((1, 2), 5)], none, 6, [], false⟩).currentProgram = none ∧
      (getProgram (handleWebGLContextLost ⟨[], [], [((1, 2), 5)], none, 6, [], false⟩) 1 2).1 =
        WebGLHelper.nextHandle ⟨[], [], [((1, 2), 5)], none, 6, [], false⟩ ∧
      (getProgram (handleWebGLContextLost ⟨[], [], [((1, 2), 5)], none, 6, [], false⟩) 1 2).1 ≠ 5 ∧
      ∃ ev1 ev2 s1 s2,
        (getProgram (handleWebGLContextLost ⟨[], [], [((1, 2), 5)], none, 6, [], false⟩) 1 2).2.events =
          WebGLHelper.events ⟨[], [], [((1, 2), 5)], none, 6, [], false⟩ ++
            [GLEvent.createProgram 6] ++ ev1 ++ [GLEvent.attachShader 6 s1] ++ ev2 ++
            [GLEvent.attachShader 6 s2, GLEvent.linkProgram 6]) :=
  ⟨rfl, by decide, C5_contextLost_recompile ⟨[], [], [((1, 2), 5)], none, 6, [], false⟩
    1 2 5 rfl (by decide)⟩

/-! ## Lemmas and claim theorems: coordinate clipper (C3) -/

lemma appendLoop_eq (flat : List Int) (extent : Extent) (stride : Nat)
    (hs : 0 < stride) (i endI : Nat) (lastX lastY : Int) (lastRel : Option Nat)
    (skipped : Bool) (acc : List Int) :
    appendLoop flat extent stride hs i endI lastX lastY lastRel skipped acc =
      (acc ++ flattenPairs (simplifyPts extent
          (extractPts flat stride hs i endI) (lastX, lastY) lastRel skipped).1,
       (simplifyPts extent (extractPts flat stride hs i endI) (lastX, lastY)
          lastRel skipped).2.1.1,
       (simplifyPts extent (extractPts flat stride hs i endI) (lastX, lastY)
          lastRel skipped).2.1.2,
       (simplifyPts extent (extractPts flat stride hs i endI) (lastX, lastY)
          lastRel skipped).2.2) := by
  by_cases hlt : i < endI
  · rw [appendLoop, dif_pos hlt, extractPts, dif_pos hlt]
    by_cases hrel : some (coordinateRelationship extent (flat.getD i 0)
        (flat.getD (i + 1) 0)) ≠ lastRel
    · rw [if_pos hrel, appendLoop_eq]
      simp only [simplifyPts]
      rw [if_pos hrel]
      cases skipped <;> simp [flattenPairs, List.append_assoc]
    · by_cases hint : coordinateRelationship extent (flat.getD i 0)
          (flat.getD (i + 1) 0) = Relationship.INTERSECTING
      · rw [if_neg hrel, if_pos hint, appendLoop_eq]
        simp only [simplifyPts]
        rw [if_neg hrel, if_pos hint]
        simp [flattenPairs, List.append_assoc]
      · rw [if_neg hrel, if_neg hint, appendLoop_eq]
        simp only [simplifyPts]
        rw [if_neg hrel, if_neg hint]
  · rw [appendLoop, dif_neg hlt, extractPts, dif_neg hlt]
    simp [simplifyPts, flattenPairs]
termination_by endI - i
decreasing_by
  · omega
  · omega
  · omega

lemma simplifyPts_trans (extent : Extent) (pts : List (Int × Int)) :
    ∀ (last : Int × Int) (lastRel : Option Nat) (skipped : Bool),
    (lastRel = none ∨ lastRel = some (relOf extent last)) →
    (∀ p ∈ pts.zip pts.tail,
        relOf extent p.1 ≠ relOf extent p.2 →
        p.1 ∈ (simplifyPts extent pts last lastRel skipped).1 ∧
        p.2 ∈ (simplifyPts extent pts last lastRel skipped).1) ∧
    (∀ m, pts.head? = some m →
        (lastRel = none ∨ relOf extent m ≠ relOf extent last) →
        (skipped = true → last ∈ (simplifyPts extent pts last lastRel skipped).1) ∧
        m ∈ (simplifyPts extent pts last lastRel skipped).1) := by
  induction pts with
  | nil =>
    intro last lastRel skipped _hinv
    constructor
    · intro p hp
      simp at hp
    · intro m hm
      simp at hm
  | cons n rest ih =>
    intro last lastRel skipped hinv
    have ihn := ih n (some (relOf extent n)) false (Or.inr rfl)
    have ihs := ih n (some (relOf extent n)) true (Or.inr rfl)
    by_cases hrel : some (coordinateRelationship extent n.1 n.2) ≠ lastRel
    · -- transition branch: n (and, when skipped, last) are pushed
      have hout : (simplifyPts extent (n :: rest) last lastRel skipped).1 =
          (if skipped then [last, n] else [n]) ++
            (simplifyPts extent rest n (some (relOf extent n)) false).1 := by
        simp only [simplifyPts]
        rw [if_pos hrel]
        rfl
      constructor
      · intro p hp hne
        rw [hout]
        cases rest with
        | nil => simp at hp
        | cons r0 rtail =>
          rcases List.mem_cons.mp hp with hhead | htail
          · subst hhead
            have hne2 : relOf extent r0 ≠ relOf extent n := Ne.symm hne
            constructor
            · show n ∈ _
              cases skipped <;> simp
            · show r0 ∈ _
              exact List.mem_append_right _ (ihn.2 r0 rfl (Or.inr hne2)).2
          · have hp2 := ihn.1 p htail hne
            exact ⟨List.mem_append_right _ hp2.1, List.mem_append_right _ hp2.2⟩
      · intro m hm _hcond
        have hmn : n = m := by simpa using hm
        subst hmn
        rw [hout]
        constructor
        · intro hsk
          subst hsk
          simp
        · cases skipped <;> simp
    · -- same relationship as the previous point
      have heq : lastRel = some (coordinateRelationship extent n.1 n.2) :=
        (not_ne_iff.mp hrel).symm
      have hlastrel : relOf extent n = relOf extent last := by
        rcases hinv with h0 | h0
        · rw [h0] at heq
          exact absurd heq (by simp)
        · rw [h0] at heq
          simpa [relOf] using heq.symm
      by_cases hint : coordinateRelationship extent n.1 n.2 =
          Relationship.INTERSECTING
      · have hout : (simplifyPts extent (n :: rest) last lastRel skipped).1 =
            n :: (simplifyPts extent rest n (some (relOf extent n)) false).1 := by
          simp only [simplifyPts]
          rw [if_neg hrel, if_pos hint]
          rfl
        constructor
        · intro p hp hne
          rw [hout]
          cases rest with
          | nil => simp at hp
          | cons r0 rtail =>
            rcases List.mem_cons.mp hp with hhead | htail
            · subst hhead
              have hne2 : relOf extent r0 ≠ relOf extent n := Ne.symm hne
              constructor
              · show n ∈ _
                exact List.mem_cons_self _ _
              · show r0 ∈ _
                exact List.mem_cons_of_mem _ (ihn.2 r0 rfl (Or.inr hne2)).2
            · have hp2 := ihn.1 p htail hne
              exact ⟨List.mem_cons_of_mem _ hp2.1, List.mem_cons_of_mem _ hp2.2⟩
        · intro m hm hcond
          have hmn : n = m := by simpa using hm
          subst hmn
          rcases hcond with h0 | h0
          · rw [h0] at heq
            exact absurd heq (by simp)
          · exact absurd hlastrel h0
      · have hout : simplifyPts extent (n :: rest) last lastRel skipped =
            simplifyPts extent rest n (some (relOf extent n)) true := by
          simp only [simplifyPts]
          rw [if_neg hrel, if_neg hint]
          rfl
        constructor
        · intro p hp hne
          rw [hout]
          cases rest with
          | nil => simp at hp
          | cons r0 rtail =>
            rcases List.mem_cons.mp hp with hhead | htail
            · subst hhead
              have hne2 : relOf extent r0 ≠ relOf extent n := Ne.symm hne
              have hpair := ihs.2 r0 rfl (Or.inr hne2)
              exact ⟨hpair.1 rfl, hpair.2⟩
            · exact ihs.1 p htail hne
        · intro m hm hcond
          have hmn : n = m := by simpa using hm
          subst hmn
          rcases hcond with h0 | h0
          · rw [h0] at heq
            exact absurd heq (by simp)
          · exact absurd hlastrel h0


lemma simplifyPts_length (extent : Extent) (pts : List (Int × Int)) :
    ∀ (last : Int × Int) (lastRel : Option Nat) (skipped : Bool),
      (simplifyPts extent pts last lastRel skipped).1.length +
        (if (simplifyPts extent pts last lastRel skipped).2.2 = true then 1 else 0) ≤
      pts.length + (if skipped = true then 1 else 0) := by
  induction pts with
  | nil =>
    intro last lastRel skipped
    simp [simplifyPts]
  | cons n rest ih =>
    intro last lastRel skipped
    by_cases hrel : some (coordinateRelationship extent n.1 n.2) ≠ lastRel
    · have hout : simplifyPts extent (n :: rest) last lastRel skipped =
          ((if skipped then [last, n] else [n]) ++
            (simplifyPts extent rest n (some (relOf extent n)) false).1,
           (simplifyPts extent rest n (some (relOf extent n)) false).2) := by
        simp only [simplifyPts]
        rw [if_pos hrel]
        rfl
      rw [hout]
      have hrec := ih n (some (relOf extent n)) false
      cases hf : (simplifyPts extent rest n (some (relOf extent n)) false).2.2 <;>
        rw [hf] at hrec <;> cases skipped <;> simp at hrec ⊢ <;> omega
    · by_cases hint : coordinateRelationship extent n.1 n.2 =
          Relationship.INTERSECTING
      · have hout : simplifyPts extent (n :: rest) last lastRel skipped =
            (n :: (simplifyPts extent rest n (some (relOf extent n)) false).1,
             (simplifyPts extent rest n (some (relOf extent n)) false).2) := by
          simp only [simplifyPts]
          rw [if_neg hrel, if_pos hint]
          rfl
        rw [hout]
        have hrec := ih n (some (relOf extent n)) false
        cases hf : (simplifyPts extent rest n (some (relOf extent n)) false).2.2 <;>
          rw [hf] at hrec <;> cases skipped <;> simp at hrec ⊢ <;> omega
      · have hout : simplifyPts extent (n :: rest) last lastRel skipped =
            simplifyPts extent rest n (some (relOf extent n)) true := by
          simp only [simplifyPts]
          rw [if_neg hrel, if_neg hint]
          rfl
        rw [hout]
        have hrec := ih n (some (relOf extent n)) true
        cases hf : (simplifyPts extent rest n (some (relOf extent n)) true).2.2 <;>
          rw [hf] at hrec <;> cases skipped <;> simp at hrec ⊢ <;> omega

lemma extractPts_smul (flat : List Int) (stride : Nat) (hs : 0 < stride)
    (i endI : Nat) (hle : i ≤ endI) (hdvd : stride ∣ (endI - i)) :
    stride * (extractPts flat stride hs i endI).length = endI - i := by
  rw [extractPts]
  split
  · next hlt =>
    have hge : stride ≤ endI - i := by
      rcases hdvd with ⟨c, hc⟩
      rcases Nat.eq_zero_or_pos c with h0 | h0
      · rw [h0, Nat.mul_zero] at hc
        omega
      · calc stride = stride * 1 := by ring
          _ ≤ stride * c := Nat.mul_le_mul_left _ h0
          _ = endI - i := hc.symm
    have hdvd2 : stride ∣ (endI - (i + stride)) := by
      have hsub : endI - (i + stride) = (endI - i) - stride := by omega
      rw [hsub]
      exact Nat.dvd_sub' hdvd dvd_rfl
    have hrec := extractPts_smul flat stride hs (i + stride) endI (by omega) hdvd2
    simp only [List.length_cons]
    rw [Nat.mul_succ]
    omega
  · next hge =>
    simp
    omega
termination_by endI - i

lemma flattenPairs_append (l1 l2 : List (Int × Int)) :
    flattenPairs (l1 ++ l2) = flattenPairs l1 ++ flattenPairs l2 := by
  induction l1 with
  | nil => simp [flattenPairs]
  | cons p rest ih => simp [flattenPairs, ih]

lemma flattenPairs_length (l : List (Int × Int)) :
    (flattenPairs l).length = 2 * l.length := by
  induction l with
  | nil => simp [flattenPairs]
  | cons p rest ih => simp [flattenPairs, ih]; omega

lemma pairList_flattenPairs (l : List (Int × Int)) :
    pairList (flattenPairs l) = l := by
  induction l with
  | nil => simp [flattenPairs, pairList]
  | cons p rest ih => simp [flattenPairs, pairList, ih]

lemma appendFlatAt_form (extent : Extent) (buf flat : List Int)
    (off1 endI stride : Nat) (hs : 0 < stride) (closed : Bool) :
    appendFlatAt extent buf flat off1 endI stride hs closed =
      buf ++ flattenPairs
        (if (closed = true ∧ (simplifyPts extent
              (extractPts flat stride hs (off1 + stride) endI)
              (flat.getD off1 0, flat.getD (off1 + 1) 0) none true).2.2 = true)
            ∨ endI ≤ off1 + stride then
          (simplifyPts extent (extractPts flat stride hs (off1 + stride) endI)
            (flat.getD off1 0, flat.getD (off1 + 1) 0) none true).1 ++
            [(simplifyPts extent (extractPts flat stride hs (off1 + stride) endI)
              (flat.getD off1 0, flat.getD (off1 + 1) 0) none true).2.1]
        else
          (simplifyPts extent (extractPts flat stride hs (off1 + stride) endI)
            (flat.getD off1 0, flat.getD (off1 + 1) 0) none true).1) := by
  unfold appendFlatAt
  rw [appendLoop_eq]
  dsimp only
  split
  · simp [flattenPairs_append, flattenPairs, List.append_assoc]
  · rfl

/-- C3: whenever two consecutive walked points have different
extent-relationship classifications, both appear (as a coordinate pair) in
the appended output, and the number of appended coordinates is at most the
number of walked input coordinates. -/
theorem C3_appendFlatCoordinates (extent : Extent) (buf flat : List Int)
    (offset endI stride off1 : Nat) (closed skipFirst : Bool)
    (hoff : off1 = if skipFirst then offset + stride else offset)
    (hs2 : 2 ≤ stride) (hdvd : stride ∣ (endI - off1)) (hlt : off1 < endI) :
    (∀ p ∈ (walkedPts flat stride (by omega) off1 endI).zip
        (walkedPts flat stride (by omega) off1 endI).tail,
      relOf extent p.1 ≠ relOf extent p.2 →
      p.1 ∈ pairList ((appendFlatCoordinates extent buf flat offset endI stride
          (by omega) closed skipFirst).drop buf.length) ∧
      p.2 ∈ pairList ((appendFlatCoordinates extent buf flat offset endI stride
          (by omega) closed skipFirst).drop buf.length)) ∧
    (appendFlatCoordinates extent buf flat offset endI stride (by omega) closed
        skipFirst).length ≤ buf.length + (endI - off1) := by
  have hs : 0 < stride := by omega
  have hAF : appendFlatCoordinates extent buf flat offset endI stride
      (by omega : 0 < stride) closed skipFirst =
      appendFlatAt extent buf flat off1 endI stride hs closed := by
    unfold appendFlatCoordinates
    rw [← hoff]
  rw [hAF, appendFlatAt_form]
  set S := simplifyPts extent (extractPts flat stride hs (off1 + stride) endI)
    (flat.getD off1 0, flat.getD (off1 + 1) 0) none true with hS
  set out := (if (closed = true ∧ S.2.2 = true) ∨ endI ≤ off1 + stride then
      S.1 ++ [S.2.1] else S.1) with hout
  have hdrop : (buf ++ flattenPairs out).drop buf.length = flattenPairs out :=
    List.drop_left _ _
  have hsub : ∀ q, q ∈ S.1 → q ∈ out := by
    intro q hq
    rw [hout]
    split
    · exact List.mem_append_left _ hq
    · exact hq
  constructor
  · intro p hp hne
    rw [hdrop, pairList_flattenPairs]
    have hT := simplifyPts_trans extent
      (extractPts flat stride hs (off1 + stride) endI)
      (flat.getD off1 0, flat.getD (off1 + 1) 0) none true (Or.inl rfl)
    rw [← hS] at hT
    simp only [walkedPts] at hp
    cases hpts : extractPts flat stride hs (off1 + stride) endI with
    | nil =>
      rw [hpts] at hp
      simp at hp
    | cons m t =>
      rw [hpts] at hp hT
      rw [hpts] at hS
      rcases List.mem_cons.mp hp with hhead | htail
      · subst hhead
        have hbd := hT.2 m rfl (Or.inl rfl)
        exact ⟨hsub _ (hbd.1 rfl), hsub _ hbd.2⟩
      · have hp2 := hT.1 p htail hne
        exact ⟨hsub _ hp2.1, hsub _ hp2.2⟩
  · have hlen := simplifyPts_length extent
      (extractPts flat stride hs (off1 + stride) endI)
      (flat.getD off1 0, flat.getD (off1 + 1) 0) none true
    rw [← hS] at hlen
    have hbound : out.length ≤
        1 + (extractPts flat stride hs (off1 + stride) endI).length := by
      rw [hout]
      split
      · next hc =>
        rcases hc with ⟨_hcl, hsk⟩ | hle
        · rw [hsk] at hlen
          simp at hlen ⊢
          omega
        · have hpts0 : extractPts flat stride hs (off1 + stride) endI = [] := by
            rw [extractPts, dif_neg (by omega)]
          rw [hpts0] at hS ⊢
          rw [hS]
          simp [simplifyPts]
      · next hc =>
        cases hf : S.2.2 <;> rw [hf] at hlen <;> simp at hlen <;> omega
    have hge : stride ≤ endI - off1 := by
      rcases hdvd with ⟨c, hc⟩
      rcases Nat.eq_zero_or_pos c with h0 | h0
      · rw [h0, Nat.mul_zero] at hc
        omega
      · calc stride = stride * 1 := by ring
          _ ≤ stride * c := Nat.mul_le_mul_left _ h0
          _ = endI - off1 := hc.symm
    have hdvd2 : stride ∣ (endI - (off1 + stride)) := by
      have hsub2 : endI - (off1 + stride) = (endI - off1) - stride := by omega
      rw [hsub2]
      exact Nat.dvd_sub' hdvd dvd_rfl
    have hsm := extractPts_smul flat stride hs (off1 + stride) endI
      (by omega) hdvd2
    calc (buf ++ flattenPairs out).length
        = buf.length + 2 * out.length := by
          rw [List.length_append, flattenPairs_length]
      _ ≤ buf.length + 2 *
            (1 + (extractPts flat stride hs (off1 + stride) endI).length) := by
          omega
      _ ≤ buf.length + stride *
            (1 + (extractPts flat stride hs (off1 + stride) endI).length) :=
          Nat.add_le_add_left (Nat.mul_le_mul_right _ hs2) _
      _ = buf.length + (stride +
            stride * (extractPts flat stride hs (off1 + stride) endI).length) := by
          rw [Nat.mul_add, Nat.mul_one]
      _ = buf.length + (endI - off1) := by
          rw [hsm]
          omega


/-- C3 witness: a line that leaves and re-enters the extent `[0,0,10,10]`. -/
theorem C3_appendFlatCoordinates_witness :
    ((0 : Nat) = (if false then 0 + 2 else 0) ∧ 2 ≤ 2 ∧ 2 ∣ (10 - 0) ∧
      (0 : Nat) < 10) ∧
    ((∀ p ∈ (walkedPts [5, 5, 20, 5, 21, 5, 22, 5, 5, 6] 2 (by omega) 0 10).zip
        (walkedPts [5, 5, 20, 5, 21, 5, 22, 5, 5, 6] 2 (by omega) 0 10).tail,
      relOf ⟨0, 0, 10, 10⟩ p.1 ≠ relOf ⟨0, 0, 10, 10⟩ p.2 →
      p.1 ∈ pairList ((appendFlatCoordinates ⟨0, 0, 10, 10⟩ []
          [5, 5, 20, 5, 21, 5, 22, 5, 5, 6] 0 10 2 (by omega) false false).drop
          (List.length ([] : List Int))) ∧
      p.2 ∈ pairList ((appendFlatCoordinates ⟨0, 0, 10, 10⟩ []
          [5, 5, 20, 5, 21, 5, 22, 5, 5, 6] 0 10 2 (by omega) false false).drop
          (List.length ([] : List Int)))) ∧
    (appendFlatCoordinates ⟨0, 0, 10, 10⟩ [] [5, 5, 20, 5, 21, 5, 22, 5, 5, 6]
        0 10 2 (by omega) false false).length ≤
      List.length ([] : List Int) + (10 - 0)) :=
  ⟨⟨rfl, by omega, by decide, by omega⟩,
   C3_appendFlatCoordinates ⟨0, 0, 10, 10⟩ [] [5, 5, 20, 5, 21, 5, 22, 5, 5, 6]
     0 10 2 0 false false rfl (by omega) (by decide) (by omega)⟩

/-! ## Claim theorems: LineString builder no-op guard (C7) -/

/-- C7: with an undefined stroke style or undefined line width,
`drawLineString` and `drawMultiLineString` return immediately: the builder —
in particular its render instruction list, hit-detection instruction list and
shared coordinate buffer — is exactly as before the call. -/
theorem C7_drawLineString_noop (b : CanvasBuilder) (flat : List Int)
    (ends : List Nat) (stride : Nat) (hs : 0 < stride) (feature : Nat)
    (h : b.state.strokeStyle = none ∨ b.state.lineWidth = none) :
    drawLineString b flat stride hs feature = some b ∧
    drawMultiLineString b flat ends stride hs feature = some b := by
  constructor
  · unfold drawLineString
    rw [if_pos h]
  · unfold drawMultiLineString
    rw [if_pos h]

/-- C7 witness: a fresh line builder whose state has no resolved stroke. -/
theorem C7_drawLineString_noop_witness :
    (FillStrokeState.strokeStyle
        (CanvasBuilder.state ⟨1, ⟨0, 0, 10, 10⟩, [], [], [], {}, none, none⟩) =
          none ∨
     FillStrokeState.lineWidth
        (CanvasBuilder.state ⟨1, ⟨0, 0, 10, 10⟩, [], [], [], {}, none, none⟩) =
          none) ∧
    (drawLineString ⟨1, ⟨0, 0, 10, 10⟩, [], [], [], {}, none, none⟩
        [1, 2, 3, 4] 2 (by omega) 7 =
      some ⟨1, ⟨0, 0, 10, 10⟩, [], [], [], {}, none, none⟩ ∧
     drawMultiLineString ⟨1, ⟨0, 0, 10, 10⟩, [], [], [], {}, none, none⟩
        [1, 2, 3, 4] [4] 2 (by omega) 7 =
      some ⟨1, ⟨0, 0, 10, 10⟩, [], [], [], {}, none, none⟩) :=
  ⟨Or.inl rfl,
   C7_drawLineString_noop ⟨1, ⟨0, 0, 10, 10⟩, [], [], [], {}, none, none⟩
     [1, 2, 3, 4] [4] 2 (by omega) 7 (Or.inl rfl)⟩


/-! ## Claim theorems: Executor batching (C1) -/

set_option maxRecDepth 10000 in
/-- C1 counterexample: replaying the executor's own non-overlapping stream of
250 consecutive FILL instructions under one fill style issues exactly ONE call
to the surface's fill primitive, not two: all 250 fills are deferred
(`pendingFill` counts up, nothing flushes without a BEGIN_PATH or style
change) and flushed once after the loop. -/
theorem C1_batchedFill_counterexample :
    (executeI ⟨[], fun _ => none, none, false, fun _ => none, true, false⟩
        (Instr.setFillStyle 0 false :: List.replicate 250 Instr.fill) 300).map
        (fun r => r.2.count REv.fillCall) = some 1 ∧
    (some 1 : Option Nat) ≠ some 2 := by
  constructor
  · decide
  · decide

set_option maxRecDepth 100000 in
set_option maxHeartbeats 3200000 in
/-- C1 (amended): on the executor's own non-overlapping stream, 250
consecutive same-style fill operations in the shape the builders emit them —
a BEGIN_PATH before every FILL — flush exactly twice (201 deferred fills at
the 202nd BEGIN_PATH, the remaining 49 after the loop); a bare run of 250
FILL opcodes (no BEGIN_PATH between them) flushes exactly once, after the
loop.  And batching is disabled whenever `overlaps` is set or the stream is
not the executor's own: the batch size is 0 and every FILL issues an
immediate fill call. -/
theorem C1_batchedFill_amended :
    ((executeI ⟨[], fun _ => none, none, false, fun _ => none, true, false⟩
        (Instr.setFillStyle 0 false ::
          (List.replicate 250 [Instr.beginPath, Instr.fill]).flatten)
        600).map (fun r => r.2.count REv.fillCall) = some 2) ∧
    (∀ own overlaps : Bool, own = false ∨ overlaps = true →
      batchSizeOf own overlaps = 0) ∧
    (∀ env : ExecEnv, env.own = false ∨ env.overlaps = true →
      ∀ (instrs : List Instr) (fuel i pf ps : Nat) (evs : List REv),
        i < instrs.length → instrs.getD i default = Instr.fill →
        execLoop env instrs (batchSizeOf env.own env.overlaps) (fuel + 1) i pf
            ps evs =
          execLoop env instrs (batchSizeOf env.own env.overlaps) fuel (i + 1)
            pf ps (evs ++ [REv.fillCall])) := by
  refine ⟨?_, ?_, ?_⟩
  · decide
  · intro own overlaps h
    rcases h with h | h <;> simp [batchSizeOf, h]
  · intro env h instrs fuel i pf ps evs hlt hfill
    have hbz : batchSizeOf env.own env.overlaps = 0 := by
      rcases h with h | h <;> simp [batchSizeOf, h]
    rw [hbz, execLoop, if_pos hlt, hfill]
    show (if (0 : Nat) ≠ 0 then
        execLoop env instrs 0 fuel (i + 1) (pf + 1) ps evs
      else execLoop env instrs 0 fuel (i + 1) pf ps (evs ++ [REv.fillCall])) = _
    rw [if_neg (by simp)]

/-- C1 witness: one FILL opcode on a foreign stream flushes immediately. -/
theorem C1_batchedFill_amended_witness :
    ((false = false ∨ false = true) ∧ (0 : Nat) < [Instr.fill].length ∧
      [Instr.fill].getD 0 default = Instr.fill) ∧
    execLoop ⟨[], fun _ => none, none, false, fun _ => none, false, false⟩
        [Instr.fill]
        (batchSizeOf
          (ExecEnv.own ⟨[], fun _ => none, none, false, fun _ => none, false, false⟩)
          (ExecEnv.overlaps ⟨[], fun _ => none, none, false, fun _ => none, false, false⟩))
        (0 + 1) 0 0 0 [] =
      execLoop ⟨[], fun _ => none, none, false, fun _ => none, false, false⟩
        [Instr.fill]
        (batchSizeOf
          (ExecEnv.own ⟨[], fun _ => none, none, false, fun _ => none, false, false⟩)
          (ExecEnv.overlaps ⟨[], fun _ => none, none, false, fun _ => none, false, false⟩))
        0 (0 + 1) 0 0 ([] ++ [REv.fillCall]) :=
  ⟨⟨Or.inl rfl, by decide, rfl⟩,
   C1_batchedFill_amended.2.2
     ⟨[], fun _ => none, none, false, fun _ => none, false, false⟩ (Or.inl rfl)
     [Instr.fill] 0 0 0 0 [] (by decide) rfl⟩


/-- C9: during replay of a stream `BEGIN_GEOMETRY(f, skip) ; body ;
END_GEOMETRY(f) ; rest` with `skip` pointing at the END_GEOMETRY index,
(i) when a hit extent is supplied and the feature geometry's extent does not
intersect it, the cursor jumps to one past END_GEOMETRY with no events
emitted, so no drawing instruction of the block executes and the feature
callback is not invoked for `f`; (ii) when the feature is in
skippedFeaturesHash the cursor jumps exactly to END_GEOMETRY, so the feature
callback is still invoked for `f` (returning its truthy result, or
continuing past the block with the callback recorded). -/
theorem C9_hitExtent_and_skip (env : ExecEnv) (body rest : List Instr)
    (f : Nat) (he ge : Extent) (fl : Nat) :
    (env.hitExtent = some he → env.geom f = some ge →
      ¬(env.skipped ≠ [] ∧ f ∈ env.skipped) →
      intersectsExtent he ge = false →
      executeI env (Instr.beginGeometry f (body.length + 1) ::
          (body ++ Instr.endGeometry f :: rest)) (fl + 1 + 1) =
        execLoop env (Instr.beginGeometry f (body.length + 1) ::
            (body ++ Instr.endGeometry f :: rest))
          (batchSizeOf env.own env.overlaps) (fl + 1)
          (body.length + 1 + 1) 0 0 []) ∧
    (env.skipped ≠ [] ∧ f ∈ env.skipped → env.hasCallback = true →
      ((∀ r, env.cbResult f = some r →
        executeI env (Instr.beginGeometry f (body.length + 1) ::
            (body ++ Instr.endGeometry f :: rest)) (fl + 1 + 1) =
          some (some r, [REv.callback f])) ∧
       (env.cbResult f = none →
        executeI env (Instr.beginGeometry f (body.length + 1) ::
            (body ++ Instr.endGeometry f :: rest)) (fl + 1 + 1) =
          execLoop env (Instr.beginGeometry f (body.length + 1) ::
              (body ++ Instr.endGeometry f :: rest))
            (batchSizeOf env.own env.overlaps) fl
            (body.length + 1 + 1) 0 0 [REv.callback f]))) := by
  constructor
  · intro hhe hge hnskip hint
    unfold executeI
    rw [execLoop, if_pos (by simp)]
    simp only [List.getD_cons_zero]
    rw [if_neg (not_or.mpr ⟨hnskip, by simp [hge]⟩), hhe]
    dsimp only
    rw [hge]
    simp only [Option.getD_some]
    rw [if_pos hint]
  · intro hskip hcb
    unfold executeI
    rw [execLoop, if_pos (by simp)]
    simp only [List.getD_cons_zero]
    rw [if_pos (Or.inl hskip)]
    rw [execLoop, if_pos (by simp [List.length_append])]
    have hgetD : (Instr.beginGeometry f (body.length + 1) ::
        (body ++ Instr.endGeometry f :: rest)).getD (body.length + 1)
        default = Instr.endGeometry f := by
      rw [List.getD_cons_succ, List.getD_eq_getElem?_getD,
        List.getElem?_append_right (le_refl _)]
      simp
    rw [hgetD, hcb]
    dsimp only
    constructor
    · intro r hr
      rw [hr]
      rfl
    · intro hnone
      rw [hnone]
      rfl

/-- Witness for C9: a concrete extent-miss replay equals the continuation at
one past END_GEOMETRY with no events (hence evaluates to `some (none, [])`),
and a concrete skipped-feature replay returns the callback's truthy result
with the callback recorded. -/
theorem C9_hitExtent_and_skip_witness :
    executeI ⟨[], fun _ => some ⟨20, 20, 30, 30⟩, some ⟨0, 0, 10, 10⟩, true,
        fun _ => some 7, false, false⟩
      [Instr.beginGeometry 5 2, Instr.moveToLineTo 0 1, Instr.endGeometry 5]
      3 = some (none, []) ∧
    executeI ⟨[5], fun _ => some ⟨0, 0, 1, 1⟩, none, true, fun _ => some 7,
        false, false⟩
      [Instr.beginGeometry 5 2, Instr.moveToLineTo 0 1, Instr.endGeometry 5]
      3 = some (some 7, [REv.callback 5]) :=
  ⟨((C9_hitExtent_and_skip
      ⟨[], fun _ => some ⟨20, 20, 30, 30⟩, some ⟨0, 0, 10, 10⟩, true,
        fun _ => some 7, false, false⟩
      [Instr.moveToLineTo 0 1] [] 5 ⟨0, 0, 10, 10⟩ ⟨20, 20, 30, 30⟩ 1).1
      rfl rfl (by simp) (by decide)).trans (by decide),
   ((C9_hitExtent_and_skip
      ⟨[5], fun _ => some ⟨0, 0, 1, 1⟩, none, true, fun _ => some 7,
        false, false⟩
      [Instr.moveToLineTo 0 1] [] 5 ⟨0, 0, 10, 10⟩ ⟨20, 20, 30, 30⟩ 1).2
      ⟨by decide, by decide⟩ rfl).1 7 rfl⟩

/-! ## Lemmas for hit-stream inversion -/

lemma getD_append_right_len (l r : List Instr) (j : Nat) :
    (l ++ r).getD (l.length + j) default = r.getD j default := by
  rw [List.getD_eq_getElem?_getD, List.getElem?_append_right (by omega)]
  simp [List.getD_eq_getElem?_getD]

lemma getD_append_self (l r : List Instr) :
    (l ++ r).getD l.length default = r.getD 0 default := by
  have h := getD_append_right_len l r 0
  simpa using h

lemma getD_append_left_lt (l r : List Instr) (j : Nat) (hj : j < l.length) :
    (l ++ r).getD j default = l.getD j default := by
  rw [List.getD_eq_getElem?_getD, List.getElem?_append, if_pos hj,
    List.getD_eq_getElem?_getD]

lemma getD_mem_self (l : List Instr) (j : Nat) (hj : j < l.length) :
    l.getD j default ∈ l := by
  rw [List.getD_eq_getElem l default hj]
  exact List.getElem_mem hj

lemma rhdLoop_walk (n : Nat) : ∀ (k i fuel : Nat) (arr : List Instr)
    (beg : Int), i + k ≤ n →
    (∀ j, i ≤ j → j < i + k → isPlain (arr.getD j default) = true) →
    rhdLoop n (fuel + k) arr beg i = rhdLoop n fuel arr beg (i + k)
  | 0, _, _, _, _, _, _ => rfl
  | k + 1, i, fuel, arr, beg, hik, hplain => by
    have hi : i < n := by omega
    have hstep : rhdLoop n (fuel + (k + 1)) arr beg i
        = rhdLoop n (fuel + k) arr beg (i + 1) := by
      show rhdLoop n ((fuel + k) + 1) arr beg i = _
      have hp := hplain i (le_refl i) (by omega)
      rw [rhdLoop, if_pos hi]
      cases harr : arr.getD i default
      all_goals rw [harr] at hp
      all_goals first
        | rfl
        | simp [isPlain] at hp
    rw [hstep,
      rhdLoop_walk n k (i + 1) fuel arr beg (by omega)
        (fun j hj1 hj2 => hplain j (by omega) (by omega))]
    congr 1
    omega


lemma set_block_last (done mid rest2 : List Instr) (c old new : Instr) :
    (done ++ (c :: mid ++ [old]) ++ rest2).set (done.length + 1 + mid.length)
        new = done ++ (c :: mid ++ [new]) ++ rest2 := by
  have h1 : done ++ (c :: mid ++ [old]) ++ rest2
      = (done ++ c :: mid) ++ (old :: rest2) := by simp
  have h2 : (done ++ c :: mid).length = done.length + 1 + mid.length := by
    simp
    omega
  rw [h1, List.set_append_right _ _ (by omega), h2]
  have h3 : done.length + 1 + mid.length - (done.length + 1 + mid.length)
      = 0 := by omega
  rw [h3, List.set_cons_zero]
  simp

lemma reverseSubArray_block (done mid rest2 : List Instr) (x y : Instr) :
    reverseSubArray (done ++ (x :: mid ++ [y]) ++ rest2) done.length
        (done.length + 1 + mid.length)
      = done ++ (y :: mid.reverse ++ [x]) ++ rest2 := by
  have h1 : done ++ (x :: mid ++ [y]) ++ rest2
      = done ++ ((x :: mid ++ [y]) ++ rest2) := by simp
  have htake : (done ++ ((x :: mid ++ [y]) ++ rest2)).take done.length
      = done := List.take_left done _
  have hdrop : (done ++ ((x :: mid ++ [y]) ++ rest2)).drop done.length
      = (x :: mid ++ [y]) ++ rest2 := List.drop_left done _
  have harith : done.length + 1 + mid.length + 1 - done.length
      = mid.length + 2 := by omega
  have htake2 : ((x :: mid ++ [y]) ++ rest2).take (mid.length + 2)
      = x :: mid ++ [y] := List.take_left' (by simp)
  have hdrop2 : (done ++ ((x :: mid ++ [y]) ++ rest2)).drop
      (done.length + 1 + mid.length + 1) = rest2 := by
    have h4 : done ++ ((x :: mid ++ [y]) ++ rest2)
        = (done ++ (x :: mid ++ [y])) ++ rest2 := by simp
    rw [h4]
    exact List.drop_left' (by simp; omega)
  rw [reverseSubArray, h1, htake, hdrop, harith, htake2, hdrop2]
  have hrev : (x :: mid ++ [y]).reverse = y :: mid.reverse ++ [x] := by simp
  rw [hrev]


lemma rhdLoop_blocks : ∀ (blocks : List (Nat × Nat × List Instr))
    (done : List Instr) (n fuel : Nat),
    n = done.length + (revBlocks blocks).length →
    fuel = (revBlocks blocks).length →
    (∀ b ∈ blocks, ∀ ins ∈ b.2.2, isPlain ins = true) →
    rhdLoop n fuel (done ++ revBlocks blocks) (-1) done.length
      = done ++ expectedFrom done.length blocks
  | [], done, n, fuel, _, hfuel, _ => by
    have h0 : (revBlocks ([] : List (Nat × Nat × List Instr))).length = 0 := by
      simp [revBlocks]
    rw [h0] at hfuel
    subst hfuel
    show done ++ revBlocks [] = done ++ expectedFrom done.length []
    simp [revBlocks, expectedFrom]
  | (f, s, body) :: rest, done, n, fuel, hn, hfuel, hplain => by
    have hrb : revBlocks ((f, s, body) :: rest)
        = (Instr.endGeometry f :: body.reverse ++ [Instr.beginGeometry f s])
          ++ revBlocks rest := by
      simp [revBlocks, revBlock]
    have hlen : (revBlocks ((f, s, body) :: rest)).length
        = body.length + 2 + (revBlocks rest).length := by
      rw [hrb]
      simp only [List.length_append, List.length_cons, List.length_reverse,
        List.length_nil]
    have hsplit : fuel = (((revBlocks rest).length + 1) + body.length) + 1 :=
      by omega
    subst hsplit
    rw [hrb]
    have hi0 : done.length < n := by omega
    rw [rhdLoop, if_pos hi0]
    have hg0 : (done ++ ((Instr.endGeometry f :: body.reverse
        ++ [Instr.beginGeometry f s]) ++ revBlocks rest)).getD done.length
        default = Instr.endGeometry f := by
      rw [getD_append_self]
      rfl
    rw [hg0]
    dsimp only
    have hpl : ∀ j, done.length + 1 ≤ j →
        j < done.length + 1 + body.length →
        isPlain ((done ++ ((Instr.endGeometry f :: body.reverse
          ++ [Instr.beginGeometry f s]) ++ revBlocks rest)).getD j default)
          = true := by
      intro j hj1 hj2
      have hA : done ++ ((Instr.endGeometry f :: body.reverse
          ++ [Instr.beginGeometry f s]) ++ revBlocks rest)
        = (done ++ [Instr.endGeometry f]) ++ (body.reverse
            ++ (Instr.beginGeometry f s :: revBlocks rest)) := by simp
      obtain ⟨j2, rfl⟩ : ∃ j2,
          j = (done ++ [Instr.endGeometry f]).length + j2 := by
        refine ⟨j - done.length - 1, ?_⟩
        simp only [List.length_append, List.length_cons, List.length_nil]
        omega
      rw [hA, getD_append_right_len]
      have hj3 : j2 < body.reverse.length := by
        simp only [List.length_append, List.length_cons, List.length_nil,
          List.length_reverse] at hj2 ⊢
        omega
      rw [getD_append_left_lt _ _ _ hj3]
      have hmem2 : body.reverse.getD j2 default ∈ body :=
        List.mem_reverse.mp (getD_mem_self body.reverse j2 hj3)
      exact hplain (f, s, body) (by simp) _ hmem2
    rw [rhdLoop_walk n body.length (done.length + 1)
      ((revBlocks rest).length + 1) _ _ (by omega) hpl]
    have hi1 : done.length + 1 + body.length < n := by omega
    rw [rhdLoop, if_pos hi1]
    have hg1 : (done ++ ((Instr.endGeometry f :: body.reverse
        ++ [Instr.beginGeometry f s]) ++ revBlocks rest)).getD
        (done.length + 1 + body.length) default
        = Instr.beginGeometry f s := by
      have hA2 : done ++ ((Instr.endGeometry f :: body.reverse
          ++ [Instr.beginGeometry f s]) ++ revBlocks rest)
        = (done ++ Instr.endGeometry f :: body.reverse)
            ++ (Instr.beginGeometry f s :: revBlocks rest) := by simp
      have hlen3 : (done ++ Instr.endGeometry f :: body.reverse).length
          = done.length + 1 + body.length := by
        simp only [List.length_append, List.length_cons, List.length_reverse]
        omega
      rw [hA2, ← hlen3, getD_append_self]
      rfl
    rw [hg1]
    dsimp only
    have htn : (Int.ofNat done.length).toNat = done.length := rfl
    rw [htn]
    have hset : (done ++ ((Instr.endGeometry f :: body.reverse
        ++ [Instr.beginGeometry f s]) ++ revBlocks rest)).set
        (done.length + 1 + body.length)
        (Instr.beginGeometry f (done.length + 1 + body.length))
      = done ++ (Instr.endGeometry f :: body.reverse
          ++ [Instr.beginGeometry f (done.length + 1 + body.length)])
          ++ revBlocks rest := by
      have h5 : done ++ ((Instr.endGeometry f :: body.reverse
          ++ [Instr.beginGeometry f s]) ++ revBlocks rest)
        = done ++ (Instr.endGeometry f :: body.reverse
            ++ [Instr.beginGeometry f s]) ++ revBlocks rest := by simp
      rw [h5]
      have h6 := set_block_last done body.reverse (revBlocks rest)
        (Instr.endGeometry f) (Instr.beginGeometry f s)
        (Instr.beginGeometry f (done.length + 1 + body.length))
      rw [List.length_reverse] at h6
      exact h6
    rw [hset]
    have hrsa := reverseSubArray_block done body.reverse (revBlocks rest)
      (Instr.endGeometry f)
      (Instr.beginGeometry f (done.length + 1 + body.length))
    rw [List.length_reverse, List.reverse_reverse] at hrsa
    rw [hrsa]
    have hD : done ++ (Instr.beginGeometry f (done.length + 1 + body.length)
        :: body ++ [Instr.endGeometry f]) ++ revBlocks rest
      = (done ++ (Instr.beginGeometry f (done.length + 1 + body.length)
          :: body ++ [Instr.endGeometry f])) ++ revBlocks rest := by simp
    have hDlen : (done ++ (Instr.beginGeometry f (done.length + 1
        + body.length) :: body ++ [Instr.endGeometry f])).length
      = done.length + 1 + body.length + 1 := by
      simp only [List.length_append, List.length_cons, List.length_nil]
      omega
    rw [hD, ← hDlen]
    rw [rhdLoop_blocks rest _ n (revBlocks rest).length (by rw [hDlen]; omega)
      rfl (fun b hb => hplain b (List.mem_cons_of_mem _ hb))]
    rw [hDlen]
    have he2 : done.length + 1 + body.length + 1
        = done.length + body.length + 2 := by omega
    rw [he2]
    have he1 : done.length + 1 + body.length
        = done.length + body.length + 1 := by omega
    rw [he1]
    simp [expectedFrom]


lemma blockStream_reverse : ∀ (blocks : List (Nat × Nat × List Instr)),
    (blockStream blocks).reverse = revBlocks blocks.reverse
  | [] => by simp [blockStream, revBlocks]
  | b :: rest => by
    have h1 : blockStream (b :: rest)
        = (Instr.beginGeometry b.1 b.2.1 :: b.2.2 ++ [Instr.endGeometry b.1])
          ++ blockStream rest := by
      simp [blockStream]
    have h2 : (Instr.beginGeometry b.1 b.2.1 :: b.2.2
        ++ [Instr.endGeometry b.1]).reverse = revBlock b := by
      simp [revBlock]
    rw [h1, List.reverse_append, blockStream_reverse rest, h2]
    have h3 : revBlocks (rest.reverse ++ [b])
        = revBlocks rest.reverse ++ revBlock b := by
      simp [revBlocks]
    rw [List.reverse_cons, h3]

/-- C2: for every hit-detection stream made of feature blocks
`BEGIN_GEOMETRY(f, skip) ; body ; END_GEOMETRY(f)` (the bodies containing
neither BEGIN_GEOMETRY nor END_GEOMETRY), `reverseHitDetectionInstructions`
— reverse the whole array, then reverse each END/BEGIN-bracketed sub-range
— yields the blocks in exactly reversed order with each block's internal
instruction order unchanged, and each BEGIN_GEOMETRY's skip field set to the
index of its own block's END_GEOMETRY in the resulting list. -/
theorem C2_hitStreamInversion (blocks : List (Nat × Nat × List Instr))
    (hplain : ∀ b ∈ blocks, ∀ ins ∈ b.2.2, isPlain ins = true) :
    reverseHitDetectionInstructions (blockStream blocks)
      = expectedFrom 0 blocks.reverse := by
  have hrev := blockStream_reverse blocks
  have hlen : (blockStream blocks).length
      = (revBlocks blocks.reverse).length := by
    rw [← hrev, List.length_reverse]
  have hplain2 : ∀ b ∈ blocks.reverse, ∀ ins ∈ b.2.2, isPlain ins = true :=
    fun b hb => hplain b (List.mem_reverse.mp hb)
  unfold reverseHitDetectionInstructions
  rw [hrev]
  have h0 := rhdLoop_blocks blocks.reverse [] (blockStream blocks).length
    (blockStream blocks).length (by simpa using hlen) hlen hplain2
  simpa using h0

/-- Witness for C2: inverting the two-block stream
`[BEGIN(1,9); FILL; END(1); BEGIN(2,7); STROKE; CLOSE_PATH; END(2)]`
yields block 2 first then block 1, bodies in original order, with the skip
fields rewritten to the END_GEOMETRY indices 3 and 6. -/
theorem C2_hitStreamInversion_witness :
    reverseHitDetectionInstructions (blockStream
        [(1, 9, [Instr.fill]), (2, 7, [Instr.stroke, Instr.closePath])])
      = [Instr.beginGeometry 2 3, Instr.stroke, Instr.closePath,
         Instr.endGeometry 2, Instr.beginGeometry 1 6, Instr.fill,
         Instr.endGeometry 1] :=
  (C2_hitStreamInversion
      [(1, 9, [Instr.fill]), (2, 7, [Instr.stroke, Instr.closePath])]
      (by decide)).trans (by decide)


/-! ## Lemmas for hit-test traversal order -/

lemma hitInner_spec (z : Int) (zmap : Int → ReplayKind → Option (Option Nat)) :
    ∀ klist : List ReplayKind,
    hitInner false z (zmap z) klist
      = specScan zmap (klist.filterMap fun k =>
          if (zmap z k).isSome then some (z, k) else none)
  | [] => rfl
  | k :: rest => by
    have ih := hitInner_spec z zmap rest
    rw [hitInner]
    cases h : zmap z k with
    | none =>
      simp [h, ih]
    | some r =>
      cases r with
      | some v =>
        simp [h, specScan]
      | none =>
        simp [h, specScan, ih]

lemma specScan_append_some (zmap : Int → ReplayKind → Option (Option Nat)) :
    ∀ (l1 l2 : List (Int × ReplayKind)) (v : Nat),
    (specScan zmap l1).1 = some v →
    specScan zmap (l1 ++ l2) = specScan zmap l1
  | [], _, v, h => by simp [specScan] at h
  | e :: rest, l2, v, h => by
    have ih := specScan_append_some zmap rest l2 v
    rw [show (e :: rest) ++ l2 = e :: (rest ++ l2) from rfl]
    cases hz : zmap e.1 e.2 with
    | none =>
      simp only [specScan, hz] at h ⊢
      rw [ih h]
    | some r =>
      cases r with
      | some w =>
        simp only [specScan, hz] at h ⊢
      | none =>
        simp only [specScan, hz] at h ⊢
        rw [ih h]

lemma specScan_append_none (zmap : Int → ReplayKind → Option (Option Nat)) :
    ∀ (l1 l2 : List (Int × ReplayKind)),
    (specScan zmap l1).1 = none →
    specScan zmap (l1 ++ l2)
      = ((specScan zmap l2).1, (specScan zmap l1).2 ++ (specScan zmap l2).2)
  | [], l2, _ => by simp [specScan]
  | e :: rest, l2, h => by
    have ih := specScan_append_none zmap rest l2
    rw [show (e :: rest) ++ l2 = e :: (rest ++ l2) from rfl]
    cases hz : zmap e.1 e.2 with
    | none =>
      simp only [specScan, hz] at h ⊢
      rw [ih h]
      simp
    | some r =>
      cases r with
      | some w =>
        simp only [specScan, hz] at h
        exact Option.noConfusion h
      | none =>
        simp only [specScan, hz] at h ⊢
        rw [ih h]
        simp

lemma hitOuter_spec (zmap : Int → ReplayKind → Option (Option Nat)) :
    ∀ zlist : List Int,
    hitOuter false zmap zlist = specScan zmap (enumDefined zmap zlist)
  | [] => rfl
  | z :: rest => by
    have ih := hitOuter_spec zmap rest
    have henum : enumDefined zmap (z :: rest)
        = (ORDER.reverse.filterMap fun k =>
            if (zmap z k).isSome then some (z, k) else none)
          ++ enumDefined zmap rest := by
      rw [enumDefined, List.flatMap_cons, ← enumDefined]
    rw [hitOuter, hitInner_spec z zmap ORDER.reverse, henum]
    cases hsc : (specScan zmap (ORDER.reverse.filterMap fun k =>
        if (zmap z k).isSome then some (z, k) else none)).1 with
    | some v =>
      rw [specScan_append_some zmap _ _ v hsc]
      dsimp only
      rw [← hsc]
    | none =>
      rw [specScan_append_none zmap _ _ hsc, ih]

lemma specScan_firstTruthy (zmap : Int → ReplayKind → Option (Option Nat)) :
    ∀ (pre : List (Int × ReplayKind)) (e : Int × ReplayKind)
    (post : List (Int × ReplayKind)) (v : Nat),
    (∀ p ∈ pre, zmap p.1 p.2 = some none) →
    zmap e.1 e.2 = some (some v) →
    specScan zmap (pre ++ e :: post)
      = (some v, (pre ++ [e]).map fun p => HitEv.run p.1 p.2)
  | [], e, post, v, _, he => by
    simp [specScan, he]
  | p :: pre, e, post, v, hpre, he => by
    have ih := specScan_firstTruthy zmap pre e post v
      (fun q hq => hpre q (List.mem_cons_of_mem _ hq)) he
    have hp := hpre p (List.mem_cons_self _ _)
    simp [specScan, hp, ih]


/-- C6: `forEachFeatureAtCoordinate` visits its executors in strictly
descending numeric z-index order and, within each z-index bucket, in
descending kind priority (the reverse of the fixed `ORDER` list): the
descending key walk is strictly sorted, the traversal (decluttering off)
equals a scan of the flat priority enumeration — defined slots by
descending z, then reversed `ORDER` — that stops at the first truthy
hit-detection result, and when every executor before an entry `e` of that
enumeration replays falsy while `e` replays truthy `v`, the call returns
`v` having run exactly the executors up to and including `e` and none
later. -/
theorem C6_forEachFeatureDescending (zs : List Int) (hnd : zs.Nodup)
    (zmap : Int → ReplayKind → Option (Option Nat)) :
    List.Sorted (fun a b => a > b) (sortDesc zs) ∧
    forEachFeatureAtCoordinate false zs zmap
      = specScan zmap (enumDefined zmap (sortDesc zs)) ∧
    (∀ pre e post v,
      enumDefined zmap (sortDesc zs) = pre ++ e :: post →
      (∀ p ∈ pre, zmap p.1 p.2 = some none) →
      zmap e.1 e.2 = some (some v) →
      forEachFeatureAtCoordinate false zs zmap
        = (some v, (pre ++ [e]).map fun p => HitEv.run p.1 p.2)) := by
  refine ⟨?_, hitOuter_spec zmap (sortDesc zs), ?_⟩
  · have hs := List.sorted_insertionSort (fun a b => a ≤ b) zs
    have hnd2 : (List.insertionSort (fun a b => a ≤ b) zs).Nodup :=
      (List.perm_insertionSort _ zs).nodup_iff.mpr hnd
    have hlt := List.Sorted.lt_of_le hs hnd2
    unfold sortDesc
    unfold List.Sorted at hlt ⊢
    rw [List.pairwise_reverse]
    exact hlt
  · intro pre e post v henum hpre he
    calc forEachFeatureAtCoordinate false zs zmap
        = specScan zmap (enumDefined zmap (sortDesc zs)) :=
          hitOuter_spec zmap (sortDesc zs)
      _ = specScan zmap (pre ++ e :: post) := by rw [henum]
      _ = (some v, (pre ++ [e]).map fun p => HitEv.run p.1 p.2) :=
          specScan_firstTruthy zmap pre e post v hpre he

/-- Witness for C6: on z-keys `[0, 2, 1]` with `c6WitnessMap`, the
traversal runs the z=2 TEXT executor first (topmost z-index, highest
reversed-`ORDER` priority among that bucket's defined slots) and returns
its truthy result 9 without running the z=2 POLYGON executor or the z=1
LINE_STRING executor. -/
theorem C6_forEachFeatureDescending_witness :
    forEachFeatureAtCoordinate false [0, 2, 1] c6WitnessMap
      = (some 9, [HitEv.run 2 ReplayKind.text]) :=
  (C6_forEachFeatureDescending [0, 2, 1] (by decide) c6WitnessMap).2.2
    [] (2, ReplayKind.text)
    [(2, ReplayKind.polygon), (1, ReplayKind.lineString)] 9
    (by decide) (by simp) (by decide)


end OL
